import Mathlib

/-!
Verification development for the angular-momentum coupling coefficients of
`src/sage/functions/wigner.py`: Wigner 3-j, 6-j, 9-j symbols, Clebsch-Gordan,
Racah and Gaunt coefficients, plus the shared factorial cache.

Modelling conventions:
* Numeric inputs are `ℚ` (Sage callers pass exact integers or rationals; the
  half-integer validation is what the code performs on them).
* Python `int(x)` on an exact rational truncates toward zero: `pyint`.
* The global factorial cache `_Factlist` always stores `i !` at index `i`
  (proved for `_calc_factlist` below, claim C10), and every coefficient
  function first extends the cache far enough for the indices it reads, so a
  cache lookup `_Factlist[int(x)]` is embedded as the factorial of the
  truncated index (`qfactI`).  Negative indices never occur on the paths the
  claims speak about (Python would wrap around there).
* A `prec=None` exact result of the library is a rational multiple of the
  square root of a rational; it is embedded as the pair `SqrtQ` with real value
  `SqrtQ.val = c * Real.sqrt r`.  Gaunt results carry an extra `1/(4*pi)` under
  the root, interpreted by `gauntVal`.
* A raised `ValueError`/`TypeError` is an `Except.error` with a `WErr` tag.
-/

/-- Python `int()` applied to an exact rational: truncation toward zero. -/
def pyint (q : ℚ) : ℤ :=
  if 0 ≤ q.num then ((q.num.toNat / q.den : ℕ) : ℤ) else -((q.num.natAbs / q.den : ℕ) : ℤ)

/-- The rational `q` is an exact integer (what `int(q) == q` tests). -/
def qIsInt (q : ℚ) : Prop := ∃ z : ℤ, q = (z : ℚ)

/-- Factorial of an integer index; callers only use it at nonnegative
indices (a negative Python list index would wrap around instead). -/
def factI (n : ℤ) : ℕ := n.toNat.factorial

/-- The cache lookup `_Factlist[int(q)]`, as a rational. -/
def qfactI (q : ℚ) : ℚ := (factI (pyint q) : ℚ)

/-- `intRangeGo lo n` is the list `[lo, lo+1, ..., lo+n-1]`. -/
def intRangeGo (lo : ℤ) : ℕ → List ℤ
  | 0 => []
  | n + 1 => lo :: intRangeGo (lo + 1) n

/-- Python `range(lo, hi + 1)` over integers, i.e. `[lo, lo+1, ..., hi]`. -/
def intRange (lo hi : ℤ) : List ℤ := intRangeGo lo (hi + 1 - lo).toNat

/-- An exact library result `c * sqrt r` with `c r : ℚ`: the shape
"rational number times the square root of a rational number". -/
structure SqrtQ where
  c : ℚ
  r : ℚ
  deriving DecidableEq, Repr

/-- A plain rational result (`return 0` in the code returns the integer 0). -/
def SqrtQ.ofRat (q : ℚ) : SqrtQ := ⟨q, 1⟩

/-- Real value of an exact result. -/
noncomputable def SqrtQ.val (s : SqrtQ) : ℝ := (s.c : ℝ) * Real.sqrt (s.r : ℝ)

/-- Product of two exact results (`sqrt a * sqrt b = sqrt (a*b)` for the
nonnegative radicands produced by the library). -/
def SqrtQ.mul (s t : SqrtQ) : SqrtQ := ⟨s.c * t.c, s.r * t.r⟩

/-- Error channel of the library functions.
`jvals`: "j values must be integer or half integer";
`mvals`: "m values must be integer or half integer";
`triangle`: "j values must be integer or half integer and fulfill the
triangle relation" (raised by `_big_delta_coeff`);
`factlist`: the `TypeError` raised inside `_calc_factlist` when its argument
is not an exact integer (`range`/`Integer()` reject it). -/
inductive WErr where
  | jvals
  | mvals
  | triangle
  | factlist
  deriving DecidableEq, Repr

instance : DecidableEq (Except WErr SqrtQ) := fun a b =>
  match a, b with
  | .ok x, .ok y => if h : x = y then .isTrue (by rw [h]) else .isFalse (by simp [h])
  | .error x, .error y => if h : x = y then .isTrue (by rw [h]) else .isFalse (by simp [h])
  | .ok _, .error _ => .isFalse (by simp)
  | .error _, .ok _ => .isFalse (by simp)

/-- Extract the value of a non-raising computation (default for errors). -/
def okD (e : Except WErr SqrtQ) (d : SqrtQ) : SqrtQ :=
  match e with
  | .ok s => s
  | .error _ => d

/-- Real value of a possibly-raising exact result; 0 for errors. -/
noncomputable def exVal (e : Except WErr SqrtQ) : ℝ :=
  match e with
  | .ok s => s.val
  | .error _ => 0

/-- Real value of a symbolic sum of exact terms (the 9-j result). -/
noncomputable def symListVal (l : List SqrtQ) : ℝ := (l.map SqrtQ.val).sum

/-!  ## The factorial cache `_Factlist` / `_calc_factlist`

The cache is global mutable state; it is embedded by explicit state passing.
`factAppend fl k` performs `k` iterations of the extension loop
`for ii in range(len(_Factlist), nn + 1): _Factlist.append(_Factlist[ii-1] * ii)`:
at each step the current length is the loop index `ii` and `_Factlist[ii-1]`
is the last element (on the empty list Python would raise `IndexError`; the
cache starts as `[1]` and never shrinks, so that is unreachable). -/
def factAppend (fl : List ℕ) : ℕ → List ℕ
  | 0 => fl
  | k + 1 => factAppend (fl ++ [fl.getLastD 0 * fl.length]) k

/-- `_calc_factlist nn` on cache state `fl`: returns the new cache state and
the returned list `_Factlist[:nn+1]`. -/
def calcFactlist (fl : List ℕ) (nn : ℕ) : List ℕ × List ℕ :=
  let fl' := if fl.length ≤ nn then factAppend fl (nn + 1 - fl.length) else fl
  (fl', fl'.take (nn + 1))

/-!  ## `wigner_3j` -/

/-- `wigner_3j(j_1, j_2, j_3, m_1, m_2, m_3, prec=None)`, exact path.
Mirrors the source line by line: half-integer validation of the j's then the
m's; the `m_1+m_2+m_3 != 0` zero; the sign `(-1)**int(j_1-j_2-m_3)`; the
negation of `m_3`; the three triangle zeros and the `|m_i| > j_i` zero; the
cache extension to `maxfact` (which raises a `TypeError` inside
`_calc_factlist` when `maxfact` is not an exact integer); the radicand
`argsqrt`; and the alternating sum over `range(imin, imax+1)`.  The returned
value `ressqrt * sumres * prefid` is the pair `(sumres * prefid, argsqrt)`. -/
def wigner_3j (j_1 j_2 j_3 m_1 m_2 m_3 : ℚ) : Except WErr SqrtQ :=
  if ¬((pyint (j_1 * 2) : ℚ) = j_1 * 2) ∨ ¬((pyint (j_2 * 2) : ℚ) = j_2 * 2) ∨
      ¬((pyint (j_3 * 2) : ℚ) = j_3 * 2) then
    .error .jvals
  else if ¬((pyint (m_1 * 2) : ℚ) = m_1 * 2) ∨ ¬((pyint (m_2 * 2) : ℚ) = m_2 * 2) ∨
      ¬((pyint (m_3 * 2) : ℚ) = m_3 * 2) then
    .error .mvals
  else if m_1 + m_2 + m_3 ≠ 0 then
    .ok (SqrtQ.ofRat 0)
  else
    let prefid : ℚ := (-1) ^ (pyint (j_1 - j_2 - m_3))
    let m3 : ℚ := -m_3
    if j_1 + j_2 - j_3 < 0 then .ok (SqrtQ.ofRat 0)
    else if j_1 - j_2 + j_3 < 0 then .ok (SqrtQ.ofRat 0)
    else if -j_1 + j_2 + j_3 < 0 then .ok (SqrtQ.ofRat 0)
    else if |m_1| > j_1 ∨ |m_2| > j_2 ∨ |m3| > j_3 then .ok (SqrtQ.ofRat 0)
    else
      let maxfact : ℚ := max (j_1 + j_2 + j_3 + 1) (max (j_1 + |m_1|) (max (j_2 + |m_2|) (j_3 + |m3|)))
      if ¬((pyint maxfact : ℚ) = maxfact) then .error .factlist
      else
        let argsqrt : ℚ :=
          (qfactI (j_1 + j_2 - j_3) * qfactI (j_1 - j_2 + j_3) * qfactI (-j_1 + j_2 + j_3) *
            qfactI (j_1 - m_1) * qfactI (j_1 + m_1) * qfactI (j_2 - m_2) * qfactI (j_2 + m_2) *
            qfactI (j_3 - m3) * qfactI (j_3 + m3)) / qfactI (j_1 + j_2 + j_3 + 1)
        let imin : ℤ := pyint (max (-j_3 + j_1 + m_2) (max (-j_3 + j_2 - m_1) 0))
        let imax : ℤ := pyint (min (j_2 + m_2) (min (j_1 - m_1) (j_1 + j_2 - j_3)))
        let sumres : ℚ :=
          ((intRange imin imax).map (fun ii =>
            ((-1 : ℚ)) ^ ii /
              ((factI ii : ℚ) * qfactI ((ii : ℚ) + j_3 - j_1 - m_2) *
                qfactI (j_2 + m_2 - (ii : ℚ)) * qfactI (j_1 - (ii : ℚ) - m_1) *
                qfactI ((ii : ℚ) + j_3 - j_2 + m_1) *
                qfactI (j_1 + j_2 - j_3 - (ii : ℚ))))).sum
        .ok ⟨sumres * prefid, argsqrt⟩

/-- `clebsch_gordan(j_1, j_2, j_3, m_1, m_2, m_3, prec=None)`:
`(-1)**int(j_1-j_2+m_3) * sqrt(2*j_3+1) * wigner_3j(j_1,j_2,j_3,m_1,m_2,-m_3)`.
Multiplying the pair `(c, r)` by the phase and by `sqrt(2*j_3+1)` gives the
pair `((-1)^int(...) * c, (2*j_3+1) * r)`; errors of `wigner_3j` propagate. -/
def clebsch_gordan (j_1 j_2 j_3 m_1 m_2 m_3 : ℚ) : Except WErr SqrtQ :=
  (wigner_3j j_1 j_2 j_3 m_1 m_2 (-m_3)).map
    (fun s => ⟨(-1) ^ (pyint (j_1 - j_2 + m_3)) * s.c, (2 * j_3 + 1) * s.r⟩)

/-!  ## `_big_delta_coeff` and `racah` -/

/-- `_big_delta_coeff(aa, bb, cc, prec=None)`: three integrality checks on the
pairwise sums/differences (each failure raises), three triangle zeros, then
the pair `(1, argsqrt)` for `sqrt(argsqrt)`.  The `maxfact` integrality test
mirrors `_calc_factlist`; with the three checks passed it always succeeds. -/
def bigDelta (aa bb cc : ℚ) : Except WErr SqrtQ :=
  if ¬((pyint (aa + bb - cc) : ℚ) = aa + bb - cc) then .error .triangle
  else if ¬((pyint (aa + cc - bb) : ℚ) = aa + cc - bb) then .error .triangle
  else if ¬((pyint (bb + cc - aa) : ℚ) = bb + cc - aa) then .error .triangle
  else if aa + bb - cc < 0 then .ok (SqrtQ.ofRat 0)
  else if aa + cc - bb < 0 then .ok (SqrtQ.ofRat 0)
  else if bb + cc - aa < 0 then .ok (SqrtQ.ofRat 0)
  else
    let maxfact : ℚ := max (aa + bb - cc) (max (aa + cc - bb) (max (bb + cc - aa) (aa + bb + cc + 1)))
    if ¬((pyint maxfact : ℚ) = maxfact) then .error .factlist
    else
      .ok ⟨1, (qfactI (aa + bb - cc) * qfactI (aa + cc - bb) * qfactI (bb + cc - aa)) /
        qfactI (aa + bb + cc + 1)⟩

/-- `racah(aa, bb, cc, dd, ee, ff, prec=None)`: the four Delta coefficients
(evaluated left to right, first raised error wins), the `prefac == 0`
short-circuit (the product of pairs is zero exactly when a component
vanishes), the summation range, the cache extension, the alternating sum with
`(kk+1)!` numerators, and the final sign `(-1)**int(aa+bb+cc+dd)`. -/
def racah (aa bb cc dd ee ff : ℚ) : Except WErr SqrtQ := do
  let w1 ← bigDelta aa bb ee
  let w2 ← bigDelta cc dd ee
  let w3 ← bigDelta aa cc ff
  let w4 ← bigDelta bb dd ff
  let prefac := SqrtQ.mul (SqrtQ.mul (SqrtQ.mul w1 w2) w3) w4
  if prefac.c = 0 ∨ prefac.r = 0 then
    return SqrtQ.ofRat 0
  else
    let imin : ℤ := pyint (max (aa + bb + ee) (max (cc + dd + ee) (max (aa + cc + ff) (bb + dd + ff))))
    let imax : ℤ := pyint (min (aa + bb + cc + dd) (min (aa + dd + ee + ff) (bb + cc + ee + ff)))
    let maxfact : ℚ := max ((imax : ℚ) + 1) (max (aa + bb + cc + dd) (max (aa + dd + ee + ff) (bb + cc + ee + ff)))
    if ¬((pyint maxfact : ℚ) = maxfact) then
      throw .factlist
    else
      let sumres : ℚ :=
        ((intRange imin imax).map (fun kk =>
          ((-1 : ℚ)) ^ kk * (factI (kk + 1) : ℚ) /
            (qfactI ((kk : ℚ) - aa - bb - ee) * qfactI ((kk : ℚ) - cc - dd - ee) *
              qfactI ((kk : ℚ) - aa - cc - ff) * qfactI ((kk : ℚ) - bb - dd - ff) *
              qfactI (aa + bb + cc + dd - (kk : ℚ)) * qfactI (aa + dd + ee + ff - (kk : ℚ)) *
              qfactI (bb + cc + ee + ff - (kk : ℚ))))).sum
      return ⟨prefac.c * sumres * (-1) ^ (pyint (aa + bb + cc + dd)), prefac.r⟩

/-- `wigner_6j(j_1,...,j_6, prec=None)`:
`(-1)**int(j_1+j_2+j_4+j_5) * racah(j_1, j_2, j_5, j_4, j_3, j_6, prec)`. -/
def wigner_6j (j_1 j_2 j_3 j_4 j_5 j_6 : ℚ) : Except WErr SqrtQ :=
  (racah j_1 j_2 j_5 j_4 j_3 j_6).map
    (fun s => ⟨(-1) ^ (pyint (j_1 + j_2 + j_4 + j_5)) * s.c, s.r⟩)

/-- `wigner_9j(j_1,...,j_9, prec=None)`: a sum over
`kk in range(imin, int(min(j_1+j_9, j_2+j_6, j_4+j_8)) + 1)` of
`(2*kk+1) * racah(j_1,j_2,j_9,j_6,j_3,kk) * racah(j_4,j_6,j_8,j_2,j_5,kk)
 * racah(j_1,j_4,j_9,j_8,j_7,kk)` with `imin = 0`.  The symbolic sum is kept
as the list of its terms (each a product of pairs, with the rational factor
`2*kk+1` folded into the coefficient); the first raising term propagates. -/
def wigner_9j (j_1 j_2 j_3 j_4 j_5 j_6 j_7 j_8 j_9 : ℚ) : Except WErr (List SqrtQ) :=
  let imax : ℤ := pyint (min (j_1 + j_9) (min (j_2 + j_6) (j_4 + j_8)))
  (intRange 0 imax).mapM (fun (kk : ℤ) => do
    let r1 ← racah j_1 j_2 j_9 j_6 j_3 (kk : ℚ)
    let r2 ← racah j_4 j_6 j_8 j_2 j_5 (kk : ℚ)
    let r3 ← racah j_1 j_4 j_9 j_8 j_7 (kk : ℚ)
    return ⟨(2 * (kk : ℚ) + 1) * r1.c * r2.c * r3.c, r1.r * r2.r * r3.r⟩)

/-!  ## `gaunt` -/

/-- Real value of a Gaunt result: the code's radicand is `s.r / (4*pi)`. -/
noncomputable def gauntVal (s : SqrtQ) : ℝ := (s.c : ℝ) * Real.sqrt ((s.r : ℝ) / (4 * Real.pi))

/-- `gaunt(l_1, l_2, l_3, m_1, m_2, m_3, prec=None)` after the `Integer()`
coercions of all six arguments (which raise a `TypeError` on non-integers;
the claims below only concern exact integer inputs).  `bigL` is the exact
half sum; the parity test `Mod(2*bigL, 2) != 0` is the parity of
`l_1+l_2+l_3`, and past it `bigL` is the exact integer `(l_1+l_2+l_3)/2`.
The result `ressqrt * prefac * sumres * (-1)**(bigL+l_3+m_1-m_2)` with
`ressqrt = sqrt(argsqrt_numerator/(4*pi))` is the pair
`(prefac * sumres * sign, argsqrt_numerator)` read through `gauntVal`. -/
def gaunt (l_1 l_2 l_3 m_1 m_2 m_3 : ℤ) : SqrtQ :=
  if l_1 + l_2 - l_3 < 0 then SqrtQ.ofRat 0
  else if l_1 - l_2 + l_3 < 0 then SqrtQ.ofRat 0
  else if -l_1 + l_2 + l_3 < 0 then SqrtQ.ofRat 0
  else if (l_1 + l_2 + l_3) % 2 ≠ 0 then SqrtQ.ofRat 0
  else if m_1 + m_2 + m_3 ≠ 0 then SqrtQ.ofRat 0
  else if |m_1| > l_1 ∨ |m_2| > l_2 ∨ |m_3| > l_3 then SqrtQ.ofRat 0
  else
    let bigL : ℤ := (l_1 + l_2 + l_3) / 2
    let imin : ℤ := max (-l_3 + l_1 + m_2) (max (-l_3 + l_2 - m_1) 0)
    let imax : ℤ := min (l_2 + m_2) (min (l_1 - m_1) (l_1 + l_2 - l_3))
    let argA : ℚ := ((2 * l_1 + 1 : ℤ) : ℚ) * ((2 * l_2 + 1 : ℤ) : ℚ) * ((2 * l_3 + 1 : ℤ) : ℚ) *
      (factI (l_1 - m_1) : ℚ) * (factI (l_1 + m_1) : ℚ) * (factI (l_2 - m_2) : ℚ) *
      (factI (l_2 + m_2) : ℚ) * (factI (l_3 - m_3) : ℚ) * (factI (l_3 + m_3) : ℚ)
    let prefac : ℚ :=
      ((factI bigL : ℚ) * (factI (l_2 - l_1 + l_3) : ℚ) * (factI (l_1 - l_2 + l_3) : ℚ) *
        (factI (l_1 + l_2 - l_3) : ℚ)) / (factI (2 * bigL + 1) : ℚ) /
        ((factI (bigL - l_1) : ℚ) * (factI (bigL - l_2) : ℚ) * (factI (bigL - l_3) : ℚ))
    let sumres : ℚ :=
      ((intRange imin imax).map (fun ii =>
        ((-1 : ℚ)) ^ ii /
          ((factI ii : ℚ) * (factI (ii + l_3 - l_1 - m_2) : ℚ) * (factI (l_2 + m_2 - ii) : ℚ) *
            (factI (l_1 - ii - m_1) : ℚ) * (factI (ii + l_3 - l_2 + m_1) : ℚ) *
            (factI (l_1 + l_2 - l_3 - ii) : ℚ)))).sum
    ⟨prefac * sumres * (-1) ^ (bigL + l_3 + m_1 - m_2), argA⟩

/-!  ## The clean summation kernel shared by the 3-j symmetry proofs

For inputs where no truncation occurs, the 3-j sum is `w3jS A B C D K lo hi`
with `A = j_1+m_2-j_3`, `B = j_2+m_2`, `C = j_1-m_1`, `D = j_2-j_3-m_1`,
`K = j_1+j_2-j_3`, `lo = max A (max D 0)`, `hi = min B (min C K)`. -/
def w3jS (A B C D K lo hi : ℤ) : ℚ :=
  ((intRange lo hi).map (fun k =>
    ((-1 : ℚ)) ^ k /
      ((factI k : ℚ) * (factI (k - A) : ℚ) * (factI (B - k) : ℚ) * (factI (C - k) : ℚ) *
        (factI (k - D) : ℚ) * (factI (K - k) : ℚ)))).sum

/-- The Racah summation kernel for truncation-free inputs: `g_i` are the four
triple sums `aa+bb+ee, cc+dd+ee, aa+cc+ff, bb+dd+ff` and `X_i` the three
quadruple sums `aa+bb+cc+dd, aa+dd+ee+ff, bb+cc+ee+ff`. -/
def racahS (g1 g2 g3 g4 X1 X2 X3 lo hi : ℤ) : ℚ :=
  ((intRange lo hi).map (fun k =>
    ((-1 : ℚ)) ^ k * (factI (k + 1) : ℚ) /
      ((factI (k - g1) : ℚ) * (factI (k - g2) : ℚ) * (factI (k - g3) : ℚ) *
        (factI (k - g4) : ℚ) * (factI (X1 - k) : ℚ) * (factI (X2 - k) : ℚ) *
        (factI (X3 - k) : ℚ)))).sum

/-!  ## Basic bridge lemmas -/

theorem pyint_intCast (z : ℤ) : pyint ((z : ℚ)) = z := by
  simp only [pyint, Rat.num_intCast, Rat.den_intCast, Nat.div_one]
  split <;> omega

theorem pyint_eq_iff (q : ℚ) : ((pyint q : ℤ) : ℚ) = q ↔ qIsInt q := by
  constructor
  · intro h
    exact ⟨pyint q, h.symm⟩
  · rintro ⟨z, rfl⟩
    rw [pyint_intCast]

theorem qfactI_cast (z : ℤ) : qfactI ((z : ℚ)) = (factI z : ℚ) := by
  rw [qfactI, pyint_intCast]

theorem qIsInt_intCast (z : ℤ) : qIsInt ((z : ℚ)) := ⟨z, rfl⟩

theorem intRange_eq_nil {lo hi : ℤ} (h : hi < lo) : intRange lo hi = [] := by
  unfold intRange
  have h0 : (hi + 1 - lo).toNat = 0 := by omega
  rw [h0]
  rfl

theorem intRange_cons {lo hi : ℤ} (h : lo ≤ hi) :
    intRange lo hi = lo :: intRange (lo + 1) hi := by
  unfold intRange
  have h1 : (hi + 1 - lo).toNat = (hi + 1 - (lo + 1)).toNat + 1 := by omega
  rw [h1]
  rfl

theorem intRangeGo_concat (n : ℕ) : ∀ lo : ℤ, intRangeGo lo (n + 1) = intRangeGo lo n ++ [lo + (n : ℤ)] := by
  induction n with
  | zero =>
    intro lo
    simp [intRangeGo]
  | succ n ih =>
    intro lo
    have h1 : intRangeGo lo (n + 1 + 1) = lo :: intRangeGo (lo + 1) (n + 1) := rfl
    rw [h1, ih (lo + 1)]
    have h2 : lo + 1 + (n : ℤ) = lo + ((n : ℕ) + 1 : ℕ) := by push_cast; ring
    rw [h2]
    rfl

theorem intRange_concat {lo hi : ℤ} (h : lo ≤ hi) :
    intRange lo hi = intRange lo (hi - 1) ++ [hi] := by
  unfold intRange
  have h1 : (hi + 1 - lo).toNat = (hi - 1 + 1 - lo).toNat + 1 := by omega
  rw [h1, intRangeGo_concat]
  have h2 : lo + ((hi - 1 + 1 - lo).toNat : ℤ) = hi := by omega
  rw [h2]

theorem mem_intRange {k lo hi : ℤ} : k ∈ intRange lo hi ↔ lo ≤ k ∧ k ≤ hi := by
  suffices H : ∀ (n : ℕ) (lo : ℤ), k ∈ intRangeGo lo n ↔ lo ≤ k ∧ k < lo + n by
    unfold intRange
    rw [H]
    omega
  intro n
  induction n with
  | zero =>
    intro lo
    simp only [intRangeGo, List.not_mem_nil, false_iff, Nat.cast_zero, add_zero]
    omega
  | succ n ih =>
    intro lo
    simp only [intRangeGo, List.mem_cons, ih (lo + 1)]
    push_cast
    omega

theorem intRange_reflect (P hi : ℤ) :
    ∀ lo, (intRange lo hi).map (fun k => P - k) = (intRange (P - hi) (P - lo)).reverse := by
  suffices H : ∀ n lo, (hi + 1 - lo).toNat = n →
      (intRange lo hi).map (fun k => P - k) = (intRange (P - hi) (P - lo)).reverse by
    exact fun lo => H _ lo rfl
  intro n
  induction n with
  | zero =>
    intro lo h0
    rw [intRange_eq_nil (by omega), intRange_eq_nil (by omega), List.map_nil, List.reverse_nil]
  | succ n ih =>
    intro lo h0
    rw [intRange_cons (by omega), intRange_concat (by omega : P - hi ≤ P - lo)]
    simp only [List.map_cons, List.reverse_append, List.reverse_cons, List.reverse_nil,
      List.nil_append, List.cons_append, List.nil_append, List.cons.injEq, true_and]
    have h2 : P - lo - 1 = P - (lo + 1) := by ring
    rw [h2]
    exact ih (lo + 1) (by omega)

theorem sum_intRange_reflect (f : ℤ → ℚ) (P lo hi : ℤ) :
    ((intRange lo hi).map f).sum = ((intRange (P - hi) (P - lo)).map (fun k => f (P - k))).sum := by
  have h := intRange_reflect P (P - lo) (P - hi)
  simp only [sub_sub_cancel] at h
  have h2 : (intRange (P - hi) (P - lo)).map (fun k => f (P - k)) =
      ((intRange (P - hi) (P - lo)).map (fun k => P - k)).map f := by
    rw [List.map_map]
    rfl
  rw [h2, h, List.map_reverse, List.sum_reverse]

theorem SqrtQ.val_ofRat (q : ℚ) : (SqrtQ.ofRat q).val = (q : ℝ) := by
  simp [SqrtQ.val, SqrtQ.ofRat]

theorem SqrtQ.val_sq (s : SqrtQ) (h : 0 ≤ s.r) : s.val ^ 2 = ((s.c ^ 2 * s.r : ℚ) : ℝ) := by
  have hr : (0 : ℝ) ≤ (s.r : ℝ) := by exact_mod_cast h
  simp only [SqrtQ.val, mul_pow, Real.sq_sqrt hr]
  push_cast
  ring

theorem SqrtQ.val_eq_of_sq (s : SqrtQ) (t : ℚ) (h : s.r = t ^ 2) (ht : 0 ≤ t) :
    s.val = ((s.c * t : ℚ) : ℝ) := by
  have ht2 : (0 : ℝ) ≤ (t : ℝ) := by exact_mod_cast ht
  simp only [SqrtQ.val, h]
  push_cast
  rw [Real.sqrt_sq ht2]

theorem negOne_zpow_even {a b : ℤ} (h : Even (a - b)) : ((-1 : ℚ)) ^ a = ((-1 : ℚ)) ^ b := by
  have h1 : a = b + (a - b) := by ring
  rw [h1, zpow_add₀ (by norm_num : (-1 : ℚ) ≠ 0), Even.neg_one_zpow h, mul_one]

/-!  ## Claim C10: the factorial cache invariant -/

theorem getLastD_of_inv (fl : List ℕ) (h : 0 < fl.length)
    (hinv : ∀ i, i < fl.length → fl.getD i 0 = i.factorial) :
    fl.getLastD 0 = (fl.length - 1).factorial := by
  have h2 := hinv (fl.length - 1) (by omega)
  rw [← h2, List.getLastD_eq_getLast?, List.getLast?_eq_getElem?,
    List.getD_eq_getElem?_getD]

theorem factAppend_spec (k : ℕ) : ∀ fl : List ℕ, 0 < fl.length →
    (∀ i, i < fl.length → fl.getD i 0 = i.factorial) →
    (factAppend fl k).length = fl.length + k ∧
    (∀ i, i < fl.length + k → (factAppend fl k).getD i 0 = i.factorial) ∧
    (∀ i, i < fl.length → (factAppend fl k).getD i 0 = fl.getD i 0) := by
  induction k with
  | zero =>
    intro fl hpos hinv
    refine ⟨rfl, fun i hi => hinv i (by omega), fun i hi => rfl⟩
  | succ k ih =>
    intro fl hpos hinv
    have hlast : fl.getLastD 0 = (fl.length - 1).factorial := getLastD_of_inv fl hpos hinv
    have hnew : ∀ i, i < (fl ++ [fl.getLastD 0 * fl.length]).length →
        (fl ++ [fl.getLastD 0 * fl.length]).getD i 0 = i.factorial := by
      intro i hi
      simp only [List.length_append, List.length_cons, List.length_nil] at hi
      by_cases hcase : i < fl.length
      · rw [List.getD_append _ _ _ _ hcase]
        exact hinv i hcase
      · have hieq : i = fl.length := by omega
        subst hieq
        rw [List.getD_append_right _ _ _ _ (le_refl _)]
        simp only [Nat.sub_self, List.getD_cons_zero]
        rw [hlast]
        have h4 : (fl.length - 1).factorial * fl.length = fl.length.factorial := by
          have h3 : fl.length = (fl.length - 1) + 1 := by omega
          conv_rhs => rw [h3]
          rw [Nat.factorial_succ, ← h3]
          ring
        exact h4
    have hlen2 : (fl ++ [fl.getLastD 0 * fl.length]).length = fl.length + 1 := by
      simp
    obtain ⟨hA, hB, hC⟩ := ih (fl ++ [fl.getLastD 0 * fl.length]) (by simp) (by rw [hlen2] at hnew ⊢; exact hnew)
    refine ⟨?_, ?_, ?_⟩
    · show (factAppend (fl ++ [fl.getLastD 0 * fl.length]) k).length = fl.length + (k + 1)
      rw [hA, hlen2]
      ring
    · intro i hi
      show (factAppend (fl ++ [fl.getLastD 0 * fl.length]) k).getD i 0 = i.factorial
      exact hB i (by rw [hlen2]; omega)
    · intro i hi
      show (factAppend (fl ++ [fl.getLastD 0 * fl.length]) k).getD i 0 = fl.getD i 0
      rw [hC i (by rw [hlen2]; omega)]
      exact List.getD_append _ _ _ _ hi

theorem take_fact (g : List ℕ) (n : ℕ)
    (hg : ∀ i, i < g.length → g.getD i 0 = i.factorial) (hlen : n + 1 ≤ g.length) :
    g.take (n + 1) = (List.range (n + 1)).map Nat.factorial := by
  apply List.ext_getElem?
  intro i
  by_cases hcase : i < n + 1
  · rw [List.getElem?_take_of_lt hcase]
    have h1 : i < g.length := by omega
    have h2 := hg i h1
    rw [List.getD_eq_getElem g 0 h1] at h2
    rw [List.getElem?_eq_getElem h1, h2]
    have h3 : i < ((List.range (n + 1)).map Nat.factorial).length := by simp; omega
    rw [List.getElem?_eq_getElem h3]
    simp
  · rw [List.getElem?_eq_none, List.getElem?_eq_none]
    · simp only [List.length_map, List.length_range]
      omega
    · simp only [List.length_take]
      omega

/-- Claim C10: after any call `_calc_factlist(n)` on a valid cache state, the
table has an entry for every index `0..n`, index `i` holds exactly `i!`, each
new entry is the previous entry times the new index, previously cached
entries are unchanged (append-only extension), a call with `n` below the
current size leaves the table untouched (idempotent extension), and the
returned list is `[0!, 1!, ..., n!]`. -/
theorem calcFactlist_invariant (fl : List ℕ) (n : ℕ)
    (hpos : 0 < fl.length)
    (hinv : ∀ i, i < fl.length → fl.getD i 0 = i.factorial) :
    (calcFactlist fl n).1.length = max fl.length (n + 1) ∧
    (∀ i, i < (calcFactlist fl n).1.length → (calcFactlist fl n).1.getD i 0 = i.factorial) ∧
    (∀ i, fl.length ≤ i → i < (calcFactlist fl n).1.length →
      (calcFactlist fl n).1.getD i 0 = (calcFactlist fl n).1.getD (i - 1) 0 * i) ∧
    (∀ i, i < fl.length → (calcFactlist fl n).1.getD i 0 = fl.getD i 0) ∧
    (n + 1 ≤ fl.length → (calcFactlist fl n).1 = fl) ∧
    (calcFactlist fl n).2 = (List.range (n + 1)).map Nat.factorial := by
  unfold calcFactlist
  by_cases hc : fl.length ≤ n
  · obtain ⟨hA, hB, hC⟩ := factAppend_spec (n + 1 - fl.length) fl hpos hinv
    simp only [if_pos hc]
    have hlen : (factAppend fl (n + 1 - fl.length)).length = n + 1 := by omega
    have hB2 : ∀ i, i < (factAppend fl (n + 1 - fl.length)).length →
        (factAppend fl (n + 1 - fl.length)).getD i 0 = i.factorial := by
      intro i hi
      exact hB i (by omega)
    refine ⟨by omega, hB2, ?_, hC, by omega, ?_⟩
    · intro i h1 h2
      rw [hB2 i h2, hB2 (i - 1) (by omega)]
      have h3 : i = (i - 1) + 1 := by omega
      have h4 : i.factorial = ((i - 1) + 1) * (i - 1).factorial := by
        conv_lhs => rw [h3]
        rw [Nat.factorial_succ]
      rw [h4, ← h3]
      ring
    · exact take_fact _ n hB2 (by omega)
  · simp only [if_neg hc]
    refine ⟨by omega, hinv, ?_, by simp, by simp, ?_⟩
    · intro i h1 h2
      omega
    · exact take_fact _ n hinv (by omega)

/-- Witness for claim C10 at the initial cache state `[1]` and `n = 3`. -/
theorem calcFactlist_invariant_witness :
    (0 < ([1] : List ℕ).length ∧ ∀ i, i < ([1] : List ℕ).length → ([1] : List ℕ).getD i 0 = i.factorial) ∧
    (calcFactlist [1] 3).1.length = max ([1] : List ℕ).length (3 + 1) ∧
    (calcFactlist [1] 3).2 = (List.range (3 + 1)).map Nat.factorial := by
  have h := calcFactlist_invariant [1] 3 (by decide) (by decide)
  exact ⟨⟨by decide, by decide⟩, h.1, h.2.2.2.2.2⟩

/-!  ## Claim C2: `wigner_3j` validation errors and selection-rule zeros -/

theorem w3j_not_err_of_valid (j_1 j_2 j_3 m_1 m_2 m_3 : ℚ)
    (hj : ((pyint (j_1 * 2) : ℚ) = j_1 * 2) ∧ ((pyint (j_2 * 2) : ℚ) = j_2 * 2) ∧
      ((pyint (j_3 * 2) : ℚ) = j_3 * 2))
    (hm : ((pyint (m_1 * 2) : ℚ) = m_1 * 2) ∧ ((pyint (m_2 * 2) : ℚ) = m_2 * 2) ∧
      ((pyint (m_3 * 2) : ℚ) = m_3 * 2)) :
    wigner_3j j_1 j_2 j_3 m_1 m_2 m_3 ≠ .error .jvals ∧
    wigner_3j j_1 j_2 j_3 m_1 m_2 m_3 ≠ .error .mvals := by
  unfold wigner_3j
  rw [if_neg (by push_neg; exact hj), if_neg (by push_neg; exact hm)]
  by_cases h3 : m_1 + m_2 + m_3 ≠ 0
  · rw [if_pos h3]
    simp
  · rw [if_neg h3]
    by_cases h4 : j_1 + j_2 - j_3 < 0
    · rw [if_pos h4]
      simp
    · rw [if_neg h4]
      by_cases h5 : j_1 - j_2 + j_3 < 0
      · rw [if_pos h5]
        simp
      · rw [if_neg h5]
        by_cases h6 : -j_1 + j_2 + j_3 < 0
        · rw [if_pos h6]
          simp
        · rw [if_neg h6]
          by_cases h7 : |m_1| > j_1 ∨ |m_2| > j_2 ∨ |(-m_3)| > j_3
          · rw [if_pos h7]
            simp
          · rw [if_neg h7]
            by_cases h8 : ¬((pyint (max (j_1 + j_2 + j_3 + 1)
                (max (j_1 + |m_1|) (max (j_2 + |m_2|) (j_3 + |(-m_3)|)))) : ℚ) =
                max (j_1 + j_2 + j_3 + 1) (max (j_1 + |m_1|) (max (j_2 + |m_2|) (j_3 + |(-m_3)|))))
            · rw [if_pos h8]
              simp
            · rw [if_neg h8]
              simp

theorem w3j_jerr_iff (j_1 j_2 j_3 m_1 m_2 m_3 : ℚ) :
    wigner_3j j_1 j_2 j_3 m_1 m_2 m_3 = .error .jvals ↔
      ¬(qIsInt (j_1 * 2) ∧ qIsInt (j_2 * 2) ∧ qIsInt (j_3 * 2)) := by
  by_cases hc1 : ¬((pyint (j_1 * 2) : ℚ) = j_1 * 2) ∨ ¬((pyint (j_2 * 2) : ℚ) = j_2 * 2) ∨
      ¬((pyint (j_3 * 2) : ℚ) = j_3 * 2)
  · have hres : wigner_3j j_1 j_2 j_3 m_1 m_2 m_3 = .error .jvals := by
      unfold wigner_3j
      rw [if_pos hc1]
    rw [hres]
    simp only [true_iff]
    intro hcon
    rcases hc1 with h | h | h
    · exact h ((pyint_eq_iff _).2 hcon.1)
    · exact h ((pyint_eq_iff _).2 hcon.2.1)
    · exact h ((pyint_eq_iff _).2 hcon.2.2)
  · push_neg at hc1
    have hR : qIsInt (j_1 * 2) ∧ qIsInt (j_2 * 2) ∧ qIsInt (j_3 * 2) :=
      ⟨(pyint_eq_iff _).1 hc1.1, (pyint_eq_iff _).1 hc1.2.1, (pyint_eq_iff _).1 hc1.2.2⟩
    constructor
    · intro h
      by_cases hc2 : ¬((pyint (m_1 * 2) : ℚ) = m_1 * 2) ∨ ¬((pyint (m_2 * 2) : ℚ) = m_2 * 2) ∨
          ¬((pyint (m_3 * 2) : ℚ) = m_3 * 2)
      · have hres : wigner_3j j_1 j_2 j_3 m_1 m_2 m_3 = .error .mvals := by
          unfold wigner_3j
          rw [if_neg (by push_neg; exact hc1), if_pos hc2]
        rw [hres] at h
        exact absurd h (by simp)
      · push_neg at hc2
        exact absurd h (w3j_not_err_of_valid j_1 j_2 j_3 m_1 m_2 m_3 hc1 hc2).1
    · intro h
      exact absurd hR h

theorem w3j_merr_iff (j_1 j_2 j_3 m_1 m_2 m_3 : ℚ)
    (hj : qIsInt (j_1 * 2) ∧ qIsInt (j_2 * 2) ∧ qIsInt (j_3 * 2)) :
    wigner_3j j_1 j_2 j_3 m_1 m_2 m_3 = .error .mvals ↔
      ¬(qIsInt (m_1 * 2) ∧ qIsInt (m_2 * 2) ∧ qIsInt (m_3 * 2)) := by
  have hj2 : ((pyint (j_1 * 2) : ℚ) = j_1 * 2) ∧ ((pyint (j_2 * 2) : ℚ) = j_2 * 2) ∧
      ((pyint (j_3 * 2) : ℚ) = j_3 * 2) :=
    ⟨(pyint_eq_iff _).2 hj.1, (pyint_eq_iff _).2 hj.2.1, (pyint_eq_iff _).2 hj.2.2⟩
  by_cases hc2 : ¬((pyint (m_1 * 2) : ℚ) = m_1 * 2) ∨ ¬((pyint (m_2 * 2) : ℚ) = m_2 * 2) ∨
      ¬((pyint (m_3 * 2) : ℚ) = m_3 * 2)
  · have hres : wigner_3j j_1 j_2 j_3 m_1 m_2 m_3 = .error .mvals := by
      unfold wigner_3j
      rw [if_neg (by push_neg; exact hj2), if_pos hc2]
    rw [hres]
    simp only [true_iff]
    intro hcon
    rcases hc2 with h | h | h
    · exact h ((pyint_eq_iff _).2 hcon.1)
    · exact h ((pyint_eq_iff _).2 hcon.2.1)
    · exact h ((pyint_eq_iff _).2 hcon.2.2)
  · push_neg at hc2
    have hR : qIsInt (m_1 * 2) ∧ qIsInt (m_2 * 2) ∧ qIsInt (m_3 * 2) :=
      ⟨(pyint_eq_iff _).1 hc2.1, (pyint_eq_iff _).1 hc2.2.1, (pyint_eq_iff _).1 hc2.2.2⟩
    constructor
    · intro h
      exact absurd h (w3j_not_err_of_valid j_1 j_2 j_3 m_1 m_2 m_3 hj2 hc2).2
    · intro h
      exact absurd hR h

theorem w3j_zero_of_selection (j_1 j_2 j_3 m_1 m_2 m_3 : ℚ)
    (hj : qIsInt (j_1 * 2) ∧ qIsInt (j_2 * 2) ∧ qIsInt (j_3 * 2))
    (hm : qIsInt (m_1 * 2) ∧ qIsInt (m_2 * 2) ∧ qIsInt (m_3 * 2))
    (hsel : m_1 + m_2 + m_3 ≠ 0 ∨ j_1 + j_2 - j_3 < 0 ∨ j_1 - j_2 + j_3 < 0 ∨
      -j_1 + j_2 + j_3 < 0 ∨ |m_1| > j_1 ∨ |m_2| > j_2 ∨ |m_3| > j_3) :
    wigner_3j j_1 j_2 j_3 m_1 m_2 m_3 = .ok (SqrtQ.ofRat 0) := by
  unfold wigner_3j
  rw [if_neg (by push_neg; exact ⟨(pyint_eq_iff _).2 hj.1, (pyint_eq_iff _).2 hj.2.1,
    (pyint_eq_iff _).2 hj.2.2⟩)]
  rw [if_neg (by push_neg; exact ⟨(pyint_eq_iff _).2 hm.1, (pyint_eq_iff _).2 hm.2.1,
    (pyint_eq_iff _).2 hm.2.2⟩)]
  by_cases h3 : m_1 + m_2 + m_3 ≠ 0
  · rw [if_pos h3]
  · rw [if_neg h3]
    by_cases h4 : j_1 + j_2 - j_3 < 0
    · rw [if_pos h4]
    · rw [if_neg h4]
      by_cases h5 : j_1 - j_2 + j_3 < 0
      · rw [if_pos h5]
      · rw [if_neg h5]
        by_cases h6 : -j_1 + j_2 + j_3 < 0
        · rw [if_pos h6]
        · rw [if_neg h6]
          have h7 : |m_1| > j_1 ∨ |m_2| > j_2 ∨ |(-m_3)| > j_3 := by
            rw [abs_neg]
            tauto
          rw [if_pos h7]

/-- Claim C2: `wigner_3j` raises the j-kind validation error iff some `2*j_i`
is not an exact integer; given valid j's it raises the m-kind validation
error iff some `2*m_i` is not an exact integer; and for inputs passing both
checks it returns the exact value 0 without raising whenever `m_1+m_2+m_3` is
nonzero, the triangle inequality fails, or some `|m_i| > j_i`. -/
theorem wigner_3j_validation_and_zeros (j_1 j_2 j_3 m_1 m_2 m_3 : ℚ) :
    (wigner_3j j_1 j_2 j_3 m_1 m_2 m_3 = .error .jvals ↔
      ¬(qIsInt (2 * j_1) ∧ qIsInt (2 * j_2) ∧ qIsInt (2 * j_3))) ∧
    (qIsInt (2 * j_1) ∧ qIsInt (2 * j_2) ∧ qIsInt (2 * j_3) →
      (wigner_3j j_1 j_2 j_3 m_1 m_2 m_3 = .error .mvals ↔
        ¬(qIsInt (2 * m_1) ∧ qIsInt (2 * m_2) ∧ qIsInt (2 * m_3)))) ∧
    (qIsInt (2 * j_1) ∧ qIsInt (2 * j_2) ∧ qIsInt (2 * j_3) →
      qIsInt (2 * m_1) ∧ qIsInt (2 * m_2) ∧ qIsInt (2 * m_3) →
      (m_1 + m_2 + m_3 ≠ 0 ∨ j_1 + j_2 - j_3 < 0 ∨ j_1 - j_2 + j_3 < 0 ∨
        -j_1 + j_2 + j_3 < 0 ∨ |m_1| > j_1 ∨ |m_2| > j_2 ∨ |m_3| > j_3) →
      wigner_3j j_1 j_2 j_3 m_1 m_2 m_3 = .ok (SqrtQ.ofRat 0)) := by
  have hcomm : ∀ x : ℚ, qIsInt (2 * x) ↔ qIsInt (x * 2) := by
    intro x
    rw [mul_comm]
  refine ⟨?_, ?_, ?_⟩
  · rw [w3j_jerr_iff]
    simp only [hcomm]
  · intro hj
    rw [w3j_merr_iff j_1 j_2 j_3 m_1 m_2 m_3
      ⟨(hcomm _).1 hj.1, (hcomm _).1 hj.2.1, (hcomm _).1 hj.2.2⟩]
    simp only [hcomm]
  · intro hj hm hsel
    exact w3j_zero_of_selection j_1 j_2 j_3 m_1 m_2 m_3
      ⟨(hcomm _).1 hj.1, (hcomm _).1 hj.2.1, (hcomm _).1 hj.2.2⟩
      ⟨(hcomm _).1 hm.1, (hcomm _).1 hm.2.1, (hcomm _).1 hm.2.2⟩ hsel

/-- Witness for claim C2: at `(2, 6, 4, 0, 0, 1)` the m-sum rule fires and
the function returns the exact 0. -/
theorem wigner_3j_validation_and_zeros_witness :
    wigner_3j 2 6 4 0 0 1 = .ok (SqrtQ.ofRat 0) :=
  (wigner_3j_validation_and_zeros 2 6 4 0 0 1).2.2
    ⟨⟨4, by norm_num⟩, ⟨12, by norm_num⟩, ⟨8, by norm_num⟩⟩
    ⟨⟨0, by norm_num⟩, ⟨0, by norm_num⟩, ⟨2, by norm_num⟩⟩
    (Or.inl (by norm_num))

/-!  ## Claim C8: `_big_delta_coeff` errors, zeros and value -/

theorem bigDelta_zero (aa bb cc : ℚ) (p q r : ℤ)
    (hp : (p : ℚ) = aa + bb - cc) (hq : (q : ℚ) = aa + cc - bb) (hr : (r : ℚ) = bb + cc - aa)
    (hneg : p < 0 ∨ q < 0 ∨ r < 0) :
    bigDelta aa bb cc = .ok (SqrtQ.ofRat 0) := by
  unfold bigDelta
  rw [if_neg (not_not_intro (by rw [← hp, pyint_intCast])),
    if_neg (not_not_intro (by rw [← hq, pyint_intCast])),
    if_neg (not_not_intro (by rw [← hr, pyint_intCast]))]
  by_cases h1 : aa + bb - cc < 0
  · rw [if_pos h1]
  · rw [if_neg h1]
    by_cases h2 : aa + cc - bb < 0
    · rw [if_pos h2]
    · rw [if_neg h2]
      have h3 : bb + cc - aa < 0 := by
        rcases hneg with h | h | h
        · exact absurd (by rw [← hp]; exact_mod_cast h) h1
        · exact absurd (by rw [← hq]; exact_mod_cast h) h2
        · rw [← hr]
          exact_mod_cast h
      rw [if_pos h3]

theorem bigDelta_ok (aa bb cc : ℚ) (p q r : ℤ)
    (hp : (p : ℚ) = aa + bb - cc) (hq : (q : ℚ) = aa + cc - bb) (hr : (r : ℚ) = bb + cc - aa)
    (hp0 : 0 ≤ p) (hq0 : 0 ≤ q) (hr0 : 0 ≤ r) :
    bigDelta aa bb cc =
      .ok ⟨1, (factI p : ℚ) * (factI q : ℚ) * (factI r : ℚ) / (factI (p + q + r + 1) : ℚ)⟩ := by
  unfold bigDelta
  rw [if_neg (not_not_intro (by rw [← hp, pyint_intCast])),
    if_neg (not_not_intro (by rw [← hq, pyint_intCast])),
    if_neg (not_not_intro (by rw [← hr, pyint_intCast]))]
  rw [if_neg (not_lt.2 (by rw [← hp]; exact_mod_cast hp0)),
    if_neg (not_lt.2 (by rw [← hq]; exact_mod_cast hq0)),
    if_neg (not_lt.2 (by rw [← hr]; exact_mod_cast hr0))]
  have h1 : aa + bb + cc + 1 = ((p + q + r + 1 : ℤ) : ℚ) := by
    push_cast
    linarith [hp, hq, hr]
  have hmax : max (aa + bb - cc) (max (aa + cc - bb) (max (bb + cc - aa) (aa + bb + cc + 1))) =
      ((max p (max q (max r (p + q + r + 1))) : ℤ) : ℚ) := by
    rw [← hp, ← hq, ← hr, h1]
    simp [Int.cast_max]
  rw [if_neg (not_not_intro (by rw [hmax, pyint_intCast]))]
  rw [← hp, ← hq, ← hr, h1, qfactI_cast, qfactI_cast, qfactI_cast, qfactI_cast]

theorem bigDelta_err_iff (aa bb cc : ℚ) :
    bigDelta aa bb cc = .error .triangle ↔
      ¬(qIsInt (aa + bb - cc) ∧ qIsInt (aa + cc - bb) ∧ qIsInt (bb + cc - aa)) := by
  constructor
  · intro h
    intro hcon
    obtain ⟨⟨p, hp⟩, ⟨q, hq⟩, ⟨r, hr⟩⟩ := hcon
    by_cases hneg : p < 0 ∨ q < 0 ∨ r < 0
    · rw [bigDelta_zero aa bb cc p q r hp.symm hq.symm hr.symm hneg] at h
      exact absurd h (by simp)
    · push_neg at hneg
      rw [bigDelta_ok aa bb cc p q r hp.symm hq.symm hr.symm hneg.1 hneg.2.1 hneg.2.2] at h
      exact absurd h (by simp)
  · intro h
    unfold bigDelta
    by_cases h1 : ¬((pyint (aa + bb - cc) : ℚ) = aa + bb - cc)
    · rw [if_pos h1]
    · rw [if_neg h1]
      by_cases h2 : ¬((pyint (aa + cc - bb) : ℚ) = aa + cc - bb)
      · rw [if_pos h2]
      · rw [if_neg h2]
        by_cases h3 : ¬((pyint (bb + cc - aa) : ℚ) = bb + cc - aa)
        · rw [if_pos h3]
        · exfalso
          push_neg at h1 h2 h3
          exact h ⟨(pyint_eq_iff _).1 h1, (pyint_eq_iff _).1 h2, (pyint_eq_iff _).1 h3⟩

/-- Claim C8: `_big_delta_coeff` raises the validation error exactly when one
of the pairwise differences `aa+bb-cc`, `aa+cc-bb`, `bb+cc-aa` is not an
exact integer; with all three integer it returns a value, which is exactly 0
iff some difference is negative, and otherwise equals
`sqrt((aa+bb-cc)! (aa+cc-bb)! (bb+cc-aa)! / (aa+bb+cc+1)!)`. -/
theorem bigDelta_validation_zero_value (aa bb cc : ℚ) :
    (bigDelta aa bb cc = .error .triangle ↔
      ¬(qIsInt (aa + bb - cc) ∧ qIsInt (aa + cc - bb) ∧ qIsInt (bb + cc - aa))) ∧
    (∀ p q r : ℤ, (p : ℚ) = aa + bb - cc → (q : ℚ) = aa + cc - bb → (r : ℚ) = bb + cc - aa →
      ∃ s, bigDelta aa bb cc = .ok s ∧
        (s.val = 0 ↔ p < 0 ∨ q < 0 ∨ r < 0) ∧
        (0 ≤ p → 0 ≤ q → 0 ≤ r →
          s.val = Real.sqrt ((factI p : ℝ) * (factI q : ℝ) * (factI r : ℝ) /
            (factI (p + q + r + 1) : ℝ)))) := by
  refine ⟨bigDelta_err_iff aa bb cc, ?_⟩
  intro p q r hp hq hr
  by_cases hneg : p < 0 ∨ q < 0 ∨ r < 0
  · refine ⟨SqrtQ.ofRat 0, bigDelta_zero aa bb cc p q r hp hq hr hneg, ?_, ?_⟩
    · rw [SqrtQ.val_ofRat]
      simp only [Rat.cast_zero, true_iff]
      exact hneg
    · intro hp0 hq0 hr0
      rcases hneg with h | h | h <;> omega
  · push_neg at hneg
    refine ⟨_, bigDelta_ok aa bb cc p q r hp hq hr hneg.1 hneg.2.1 hneg.2.2, ?_, ?_⟩
    · have hpos : (0 : ℚ) < (factI p : ℚ) * (factI q : ℚ) * (factI r : ℚ) /
          (factI (p + q + r + 1) : ℚ) := by
        have f1 : 0 < factI p := Nat.factorial_pos _
        have f2 : 0 < factI q := Nat.factorial_pos _
        have f3 : 0 < factI r := Nat.factorial_pos _
        have f4 : 0 < factI (p + q + r + 1) := Nat.factorial_pos _
        positivity
      have hval : (0 : ℝ) < SqrtQ.val ⟨1, (factI p : ℚ) * (factI q : ℚ) * (factI r : ℚ) /
          (factI (p + q + r + 1) : ℚ)⟩ := by
        simp only [SqrtQ.val, Rat.cast_one, one_mul]
        apply Real.sqrt_pos.2
        exact_mod_cast hpos
      constructor
      · intro h0
        rw [h0] at hval
        exact absurd hval (lt_irrefl 0)
      · intro h
        rcases h with h | h | h <;> omega
    · intro _ _ _
      simp only [SqrtQ.val, Rat.cast_one, one_mul]
      congr 1
      push_cast
      ring

/-- Witness for claim C8 at `(1, 1, 1)`: the Delta coefficient is
`sqrt(1/24)` (the doctest value `1/2*sqrt(1/6)`). -/
theorem bigDelta_validation_zero_value_witness :
    ∃ s, bigDelta 1 1 1 = .ok s ∧ ¬(s.val = 0) := by
  obtain ⟨s, hs, hzero, _⟩ :=
    (bigDelta_validation_zero_value 1 1 1).2 1 1 1 (by norm_num) (by norm_num) (by norm_num)
  refine ⟨s, hs, ?_⟩
  rw [hzero]
  push_neg
  exact ⟨by norm_num, by norm_num, by norm_num⟩

/-!  ## The `wigner_3j` computing branch, in integer form

For aligned inputs (`2*j_i`, `j_i - m_i` and `j_1+j_2+j_3` all integers) no
`int()` truncation occurs and the function computes the textbook formula.
Witnesses: `J = j_1+j_2+j_3`, `t_i = 2*j_i`, `d_i = j_i - m_i`. -/

set_option maxHeartbeats 2000000 in
theorem w3j_ok_core (j_1 j_2 j_3 m_1 m_2 m_3 : ℚ)
    (J t1 t2 t3 d1 d2 d3 : ℤ)
    (hJ : (J : ℚ) = j_1 + j_2 + j_3)
    (ht1 : (t1 : ℚ) = 2 * j_1) (ht2 : (t2 : ℚ) = 2 * j_2) (ht3 : (t3 : ℚ) = 2 * j_3)
    (hd1 : (d1 : ℚ) = j_1 - m_1) (hd2 : (d2 : ℚ) = j_2 - m_2) (hd3 : (d3 : ℚ) = j_3 - m_3)
    (hms : m_1 + m_2 + m_3 = 0)
    (htr1 : t3 ≤ J) (htr2 : t2 ≤ J) (htr3 : t1 ≤ J)
    (hm1 : 0 ≤ d1 ∧ d1 ≤ t1) (hm2 : 0 ≤ d2 ∧ d2 ≤ t2) (hm3 : 0 ≤ d3 ∧ d3 ≤ t3) :
    wigner_3j j_1 j_2 j_3 m_1 m_2 m_3 =
      .ok ⟨w3jS (J - t3 - d2) (t2 - d2) d1 (J - t1 - t3 + d1) (J - t3)
            (max (J - t3 - d2) (max (J - t1 - t3 + d1) 0))
            (min (t2 - d2) (min d1 (J - t3))) *
          (-1) ^ (J - t2 - t3 + d3),
        (factI (J - t3) : ℚ) * (factI (J - t2) : ℚ) * (factI (J - t1) : ℚ) *
          (factI d1 : ℚ) * (factI (t1 - d1) : ℚ) * (factI d2 : ℚ) * (factI (t2 - d2) : ℚ) *
          (factI (t3 - d3) : ℚ) * (factI d3 : ℚ) / (factI (J + 1) : ℚ)⟩ := by
  have hq1 : (0 : ℚ) ≤ (d1 : ℚ) := by exact_mod_cast hm1.1
  have hq2 : (d1 : ℚ) ≤ (t1 : ℚ) := by exact_mod_cast hm1.2
  have hq3 : (0 : ℚ) ≤ (d2 : ℚ) := by exact_mod_cast hm2.1
  have hq4 : (d2 : ℚ) ≤ (t2 : ℚ) := by exact_mod_cast hm2.2
  have hq5 : (0 : ℚ) ≤ (d3 : ℚ) := by exact_mod_cast hm3.1
  have hq6 : (d3 : ℚ) ≤ (t3 : ℚ) := by exact_mod_cast hm3.2
  have e1 : j_1 * 2 = ((t1 : ℤ) : ℚ) := by rw [ht1]; ring
  have e2 : j_2 * 2 = ((t2 : ℤ) : ℚ) := by rw [ht2]; ring
  have e3 : j_3 * 2 = ((t3 : ℤ) : ℚ) := by rw [ht3]; ring
  have e4 : m_1 * 2 = ((t1 - 2 * d1 : ℤ) : ℚ) := by push_cast; linarith [ht1, hd1]
  have e5 : m_2 * 2 = ((t2 - 2 * d2 : ℤ) : ℚ) := by push_cast; linarith [ht2, hd2]
  have e6 : m_3 * 2 = ((t3 - 2 * d3 : ℤ) : ℚ) := by push_cast; linarith [ht3, hd3]
  have ea1 : j_1 + j_2 - j_3 = ((J - t3 : ℤ) : ℚ) := by push_cast; linarith [hJ, ht3]
  have ea2 : j_1 - j_2 + j_3 = ((J - t2 : ℤ) : ℚ) := by push_cast; linarith [hJ, ht2]
  have ea3 : -j_1 + j_2 + j_3 = ((J - t1 : ℤ) : ℚ) := by push_cast; linarith [hJ, ht1]
  have ea4 : j_1 - m_1 = ((d1 : ℤ) : ℚ) := hd1.symm
  have ea5 : j_1 + m_1 = ((t1 - d1 : ℤ) : ℚ) := by push_cast; linarith [ht1, hd1]
  have ea6 : j_2 - m_2 = ((d2 : ℤ) : ℚ) := hd2.symm
  have ea7 : j_2 + m_2 = ((t2 - d2 : ℤ) : ℚ) := by push_cast; linarith [ht2, hd2]
  have ea8 : j_3 - -m_3 = ((t3 - d3 : ℤ) : ℚ) := by push_cast; linarith [ht3, hd3]
  have ea9 : j_3 + -m_3 = ((d3 : ℤ) : ℚ) := by push_cast; linarith [hd3]
  have ea10 : j_1 + j_2 + j_3 + 1 = ((J + 1 : ℤ) : ℚ) := by push_cast; linarith [hJ]
  have habs1 : |m_1| ≤ j_1 := by
    rw [abs_le]
    exact ⟨by linarith [ht1, hd1, hq2], by linarith [hd1, hq1]⟩
  have habs2 : |m_2| ≤ j_2 := by
    rw [abs_le]
    exact ⟨by linarith [ht2, hd2, hq4], by linarith [hd2, hq3]⟩
  have habs3 : |(-m_3)| ≤ j_3 := by
    rw [abs_neg, abs_le]
    exact ⟨by linarith [ht3, hd3, hq6], by linarith [hd3, hq5]⟩
  have hmx1 : j_1 + |m_1| = ((max (t1 - d1) d1 : ℤ) : ℚ) := by
    rw [abs_eq_max_neg, Int.cast_max, ← max_add_add_left]
    rw [show j_1 + m_1 = ((t1 - d1 : ℤ) : ℚ) from ea5, show j_1 + -m_1 = ((d1 : ℤ) : ℚ) from by
      push_cast; linarith [hd1]]
  have hmx2 : j_2 + |m_2| = ((max (t2 - d2) d2 : ℤ) : ℚ) := by
    rw [abs_eq_max_neg, Int.cast_max, ← max_add_add_left]
    rw [show j_2 + m_2 = ((t2 - d2 : ℤ) : ℚ) from ea7, show j_2 + -m_2 = ((d2 : ℤ) : ℚ) from by
      push_cast; linarith [hd2]]
  have hmx3 : j_3 + |(-m_3)| = ((max (t3 - d3) d3 : ℤ) : ℚ) := by
    rw [abs_neg, abs_eq_max_neg, Int.cast_max, ← max_add_add_left]
    rw [show j_3 + m_3 = ((t3 - d3 : ℤ) : ℚ) from by push_cast; linarith [ht3, hd3],
      show j_3 + -m_3 = ((d3 : ℤ) : ℚ) from ea9]
  have ebmin : max (-j_3 + j_1 + m_2) (max (-j_3 + j_2 - m_1) 0) =
      ((max (J - t3 - d2) (max (J - t1 - t3 + d1) 0) : ℤ) : ℚ) := by
    rw [show -j_3 + j_1 + m_2 = ((J - t3 - d2 : ℤ) : ℚ) from by
        push_cast; linarith [hJ, ht3, hd2],
      show -j_3 + j_2 - m_1 = ((J - t1 - t3 + d1 : ℤ) : ℚ) from by
        push_cast; linarith [hJ, ht1, ht3, hd1],
      show (0 : ℚ) = ((0 : ℤ) : ℚ) from by norm_num]
    simp [Int.cast_max]
  have ebmax : min (j_2 + m_2) (min (j_1 - m_1) (j_1 + j_2 - j_3)) =
      ((min (t2 - d2) (min d1 (J - t3)) : ℤ) : ℚ) := by
    rw [ea7, ea4, ea1]
    simp [Int.cast_min]
  unfold wigner_3j
  rw [if_neg (by
    push_neg
    exact ⟨by rw [e1, pyint_intCast], by rw [e2, pyint_intCast], by rw [e3, pyint_intCast]⟩)]
  rw [if_neg (by
    push_neg
    exact ⟨by rw [e4, pyint_intCast], by rw [e5, pyint_intCast], by rw [e6, pyint_intCast]⟩)]
  rw [if_neg (not_not_intro hms)]
  rw [if_neg (by rw [ea1]; simp; omega)]
  rw [if_neg (by rw [ea2]; simp; omega)]
  rw [if_neg (by rw [ea3]; simp; omega)]
  rw [if_neg (by push_neg; exact ⟨habs1, habs2, habs3⟩)]
  rw [if_neg (not_not_intro (by
    rw [ea10, hmx1, hmx2, hmx3, show ((J + 1 : ℤ) : ℚ) ⊔ (((max (t1 - d1) d1 : ℤ) : ℚ) ⊔
      (((max (t2 - d2) d2 : ℤ) : ℚ) ⊔ ((max (t3 - d3) d3 : ℤ) : ℚ))) =
      ((max (J + 1) (max (max (t1 - d1) d1) (max (max (t2 - d2) d2) (max (t3 - d3) d3))) : ℤ) : ℚ)
      from by simp [Int.cast_max], pyint_intCast]))]
  dsimp only
  simp only [Except.ok.injEq, SqrtQ.mk.injEq]
  refine ⟨?_, ?_⟩
  · rw [ebmin, ebmax, pyint_intCast, pyint_intCast]
    rw [show j_1 - j_2 - m_3 = ((J - t2 - t3 + d3 : ℤ) : ℚ) from by
      push_cast; linarith [hJ, ht2, ht3, hd3], pyint_intCast]
    unfold w3jS
    refine congrArg (fun x : ℚ => x * (-1) ^ (J - t2 - t3 + d3)) ?_
    refine congrArg (fun l : List ℚ => l.sum) (List.map_congr_left (fun ii _ => ?_))
    rw [show (ii : ℚ) + j_3 - j_1 - m_2 = ((ii - (J - t3 - d2) : ℤ) : ℚ) from by
        push_cast; linarith [hJ, ht3, hd2],
      show j_2 + m_2 - (ii : ℚ) = ((t2 - d2 - ii : ℤ) : ℚ) from by
        push_cast; linarith [ht2, hd2],
      show j_1 - (ii : ℚ) - m_1 = ((d1 - ii : ℤ) : ℚ) from by
        push_cast; linarith [hd1],
      show (ii : ℚ) + j_3 - j_2 + m_1 = ((ii - (J - t1 - t3 + d1) : ℤ) : ℚ) from by
        push_cast; linarith [hJ, ht1, ht3, hd1],
      show j_1 + j_2 - j_3 - (ii : ℚ) = ((J - t3 - ii : ℤ) : ℚ) from by
        push_cast; linarith [hJ, ht3]]
    rw [qfactI_cast, qfactI_cast, qfactI_cast, qfactI_cast, qfactI_cast]
  · rw [ea1, ea2, ea3, ea4, ea5, ea6, ea7, ea8, ea9, ea10]
    rw [qfactI_cast, qfactI_cast, qfactI_cast, qfactI_cast, qfactI_cast, qfactI_cast,
      qfactI_cast, qfactI_cast, qfactI_cast, qfactI_cast]

theorem abs_gt_of_not_range (j m : ℚ) (d t : ℤ) (hd : (d : ℚ) = j - m) (ht : (t : ℚ) = 2 * j)
    (h : ¬(0 ≤ d ∧ d ≤ t)) : |m| > j := by
  rw [not_and_or] at h
  rcases h with h | h
  · push_neg at h
    have hq : (d : ℚ) < 0 := by exact_mod_cast h
    have hmj : j < m := by linarith [hd]
    exact lt_of_lt_of_le hmj (le_abs_self m)
  · push_neg at h
    have hq : (t : ℚ) < (d : ℚ) := by exact_mod_cast h
    have hmj : j < -m := by linarith [hd, ht]
    exact lt_of_lt_of_le hmj (neg_le_abs m)

theorem w3j_zero_core (j_1 j_2 j_3 m_1 m_2 m_3 : ℚ)
    (J t1 t2 t3 d1 d2 d3 : ℤ)
    (hJ : (J : ℚ) = j_1 + j_2 + j_3)
    (ht1 : (t1 : ℚ) = 2 * j_1) (ht2 : (t2 : ℚ) = 2 * j_2) (ht3 : (t3 : ℚ) = 2 * j_3)
    (hd1 : (d1 : ℚ) = j_1 - m_1) (hd2 : (d2 : ℚ) = j_2 - m_2) (hd3 : (d3 : ℚ) = j_3 - m_3)
    (hfail : ¬(m_1 + m_2 + m_3 = 0 ∧ t3 ≤ J ∧ t2 ≤ J ∧ t1 ≤ J ∧
      (0 ≤ d1 ∧ d1 ≤ t1) ∧ (0 ≤ d2 ∧ d2 ≤ t2) ∧ (0 ≤ d3 ∧ d3 ≤ t3))) :
    wigner_3j j_1 j_2 j_3 m_1 m_2 m_3 = .ok (SqrtQ.ofRat 0) := by
  have hvj : qIsInt (j_1 * 2) ∧ qIsInt (j_2 * 2) ∧ qIsInt (j_3 * 2) :=
    ⟨⟨t1, by rw [ht1]; ring⟩, ⟨t2, by rw [ht2]; ring⟩, ⟨t3, by rw [ht3]; ring⟩⟩
  have hvm : qIsInt (m_1 * 2) ∧ qIsInt (m_2 * 2) ∧ qIsInt (m_3 * 2) :=
    ⟨⟨t1 - 2 * d1, by push_cast; linarith [ht1, hd1]⟩,
     ⟨t2 - 2 * d2, by push_cast; linarith [ht2, hd2]⟩,
     ⟨t3 - 2 * d3, by push_cast; linarith [ht3, hd3]⟩⟩
  apply w3j_zero_of_selection j_1 j_2 j_3 m_1 m_2 m_3 hvj hvm
  by_cases h1 : m_1 + m_2 + m_3 = 0
  · by_cases h2 : t3 ≤ J
    · by_cases h3 : t2 ≤ J
      · by_cases h4 : t1 ≤ J
        · by_cases h5 : 0 ≤ d1 ∧ d1 ≤ t1
          · by_cases h6 : 0 ≤ d2 ∧ d2 ≤ t2
            · by_cases h7 : 0 ≤ d3 ∧ d3 ≤ t3
              · exact absurd ⟨h1, h2, h3, h4, h5, h6, h7⟩ hfail
              · exact Or.inr (Or.inr (Or.inr (Or.inr (Or.inr (Or.inr
                  (abs_gt_of_not_range j_3 m_3 d3 t3 hd3 ht3 h7))))))
            · exact Or.inr (Or.inr (Or.inr (Or.inr (Or.inr (Or.inl
                (abs_gt_of_not_range j_2 m_2 d2 t2 hd2 ht2 h6))))))
          · exact Or.inr (Or.inr (Or.inr (Or.inr (Or.inl
              (abs_gt_of_not_range j_1 m_1 d1 t1 hd1 ht1 h5)))))
        · refine Or.inr (Or.inr (Or.inr (Or.inl ?_)))
          have hq : (J : ℚ) < (t1 : ℚ) := by exact_mod_cast not_le.1 h4
          linarith [hJ, ht1]
      · refine Or.inr (Or.inr (Or.inl ?_))
        have hq : (J : ℚ) < (t2 : ℚ) := by exact_mod_cast not_le.1 h3
        linarith [hJ, ht2]
    · refine Or.inr (Or.inl ?_)
      have hq : (J : ℚ) < (t3 : ℚ) := by exact_mod_cast not_le.1 h2
      linarith [hJ, ht3]
  · exact Or.inl h1

/-!  ## Symmetries of the summation kernel -/

theorem w3jS_swap_AD (A B C D K lo hi : ℤ) : w3jS A B C D K lo hi = w3jS D B C A K lo hi := by
  unfold w3jS
  refine congrArg (fun l : List ℚ => l.sum) (List.map_congr_left (fun k _ => ?_))
  ring

theorem w3jS_swap_BC (A B C D K lo hi : ℤ) : w3jS A B C D K lo hi = w3jS A C B D K lo hi := by
  unfold w3jS
  refine congrArg (fun l : List ℚ => l.sum) (List.map_congr_left (fun k _ => ?_))
  ring

theorem w3jS_swap_CK (A B C D K lo hi : ℤ) : w3jS A B C D K lo hi = w3jS A B K D C lo hi := by
  unfold w3jS
  refine congrArg (fun l : List ℚ => l.sum) (List.map_congr_left (fun k _ => ?_))
  ring

theorem w3jS_reflect (A B C D K lo hi : ℤ) :
    w3jS A B C D K lo hi =
      (-1) ^ K * w3jS (K - B) (K - A) (K - D) (K - C) K (K - hi) (K - lo) := by
  unfold w3jS
  rw [sum_intRange_reflect _ K lo hi]
  rw [show ((-1 : ℚ)) ^ K * ((intRange (K - hi) (K - lo)).map (fun k =>
      ((-1 : ℚ)) ^ k / ((factI k : ℚ) * (factI (k - (K - B)) : ℚ) * (factI ((K - A) - k) : ℚ) *
        (factI ((K - D) - k) : ℚ) * (factI (k - (K - C)) : ℚ) * (factI (K - k) : ℚ)))).sum =
    ((intRange (K - hi) (K - lo)).map (fun k =>
      ((-1 : ℚ)) ^ K * (((-1 : ℚ)) ^ k / ((factI k : ℚ) * (factI (k - (K - B)) : ℚ) *
        (factI ((K - A) - k) : ℚ) * (factI ((K - D) - k) : ℚ) * (factI (k - (K - C)) : ℚ) *
        (factI (K - k) : ℚ))))).sum from (List.sum_map_mul_left _ _ _).symm]
  refine congrArg (fun l : List ℚ => l.sum) (List.map_congr_left (fun k _ => ?_))
  have hsign : ((-1 : ℚ)) ^ (K - k) = (-1) ^ K * (-1) ^ k := by
    have he : Even ((K - k) - (K + k)) := ⟨-k, by ring⟩
    rw [negOne_zpow_even he, zpow_add₀ (by norm_num : (-1 : ℚ) ≠ 0)]
  rw [show K - k - A = K - A - k from by ring, show B - (K - k) = k - (K - B) from by ring,
    show C - (K - k) = k - (K - C) from by ring, show K - k - D = K - D - k from by ring,
    show K - (K - k) = k from by ring, hsign]
  ring

/-!  ## Claim C1: `wigner_3j` computes the Racah summation formula -/

theorem w3j_concrete_264 :
    wigner_3j 2 6 4 0 0 0 = .ok ⟨1 / 2304, 26542080 / 143⟩ := by
  norm_num [wigner_3j, pyint, qfactI, factI, intRange, intRangeGo, Nat.factorial]

set_option maxHeartbeats 1000000 in
/-- Claim C1: for inputs passing the half-integer validation and every
selection rule (stated through the integer values `p, q, r, u_i, v_i, JJ, E,
zA, zD` of the combinations appearing in the formula), `wigner_3j` returns
the overall sign `(-1)^(j_1-j_2-m_3)` times the exact square root of the
radicand `p! q! r! (j_1-m_1)! (j_1+m_1)! (j_2-m_2)! (j_2+m_2)! (j_3-m_3)!
(j_3+m_3)! / (j_1+j_2+j_3+1)!` (with `m_3` negated) times the alternating
sum over `k` from `max(-j_3+j_1+m_2, -j_3+j_2-m_1, 0)` to
`min(j_2+m_2, j_1-m_1, j_1+j_2-j_3)`; in particular the square of
`wigner_3j 2 6 4 0 0 0` is exactly `5/143`. -/
theorem wigner_3j_formula (j_1 j_2 j_3 m_1 m_2 m_3 : ℚ)
    (p q r u1 v1 u2 v2 u3 v3 JJ E zA zD : ℤ)
    (hp : (p : ℚ) = j_1 + j_2 - j_3) (hq : (q : ℚ) = j_1 - j_2 + j_3)
    (hr : (r : ℚ) = -j_1 + j_2 + j_3)
    (hu1 : (u1 : ℚ) = j_1 - m_1) (hv1 : (v1 : ℚ) = j_1 + m_1)
    (hu2 : (u2 : ℚ) = j_2 - m_2) (hv2 : (v2 : ℚ) = j_2 + m_2)
    (hu3 : (u3 : ℚ) = j_3 + m_3) (hv3 : (v3 : ℚ) = j_3 - m_3)
    (hJJ : (JJ : ℚ) = j_1 + j_2 + j_3)
    (hE : (E : ℚ) = j_1 - j_2 - m_3)
    (hzA : (zA : ℚ) = j_3 - j_1 - m_2) (hzD : (zD : ℚ) = j_3 - j_2 + m_1)
    (hms : m_1 + m_2 + m_3 = 0)
    (hp0 : 0 ≤ p) (hq0 : 0 ≤ q) (hr0 : 0 ≤ r)
    (habs1 : |m_1| ≤ j_1) (habs2 : |m_2| ≤ j_2) (habs3 : |m_3| ≤ j_3) :
    (∃ s, wigner_3j j_1 j_2 j_3 m_1 m_2 m_3 = .ok s ∧
      s.val = (-1 : ℝ) ^ E *
        Real.sqrt (((factI p : ℝ) * (factI q : ℝ) * (factI r : ℝ) * (factI u1 : ℝ) *
          (factI v1 : ℝ) * (factI u2 : ℝ) * (factI v2 : ℝ) * (factI u3 : ℝ) * (factI v3 : ℝ)) /
          (factI (JJ + 1) : ℝ)) *
        ((((intRange (max (-zA) (max (-zD) 0)) (min v2 (min u1 p))).map (fun k =>
          ((-1 : ℚ)) ^ k / ((factI k : ℚ) * (factI (k + zA) : ℚ) * (factI (v2 - k) : ℚ) *
            (factI (u1 - k) : ℚ) * (factI (k + zD) : ℚ) * (factI (p - k) : ℚ)))).sum : ℚ) : ℝ)) ∧
    (∃ s, wigner_3j 2 6 4 0 0 0 = .ok s ∧ s.val ^ 2 = (5 / 143 : ℝ)) := by
  constructor
  · have hm1a := abs_le.1 habs1
    have hm2a := abs_le.1 habs2
    have hm3a := abs_le.1 habs3
    have hJpqr : JJ = p + q + r := by
      have h : ((JJ : ℤ) : ℚ) = ((p + q + r : ℤ) : ℚ) := by push_cast; linarith [hJJ, hp, hq, hr]
      exact_mod_cast h
    have ht1q : ((p + q : ℤ) : ℚ) = 2 * j_1 := by push_cast; linarith [hp, hq]
    have ht2q : ((p + r : ℤ) : ℚ) = 2 * j_2 := by push_cast; linarith [hp, hr]
    have ht3q : ((q + r : ℤ) : ℚ) = 2 * j_3 := by push_cast; linarith [hq, hr]
    have hmm1 : 0 ≤ u1 ∧ u1 ≤ p + q := by
      constructor
      · have h : ((0 : ℤ) : ℚ) ≤ ((u1 : ℤ) : ℚ) := by push_cast; linarith [hu1, hm1a.2]
        exact_mod_cast h
      · have h : ((u1 : ℤ) : ℚ) ≤ ((p + q : ℤ) : ℚ) := by push_cast; linarith [hu1, hp, hq, hm1a.1]
        exact_mod_cast h
    have hmm2 : 0 ≤ u2 ∧ u2 ≤ p + r := by
      constructor
      · have h : ((0 : ℤ) : ℚ) ≤ ((u2 : ℤ) : ℚ) := by push_cast; linarith [hu2, hm2a.2]
        exact_mod_cast h
      · have h : ((u2 : ℤ) : ℚ) ≤ ((p + r : ℤ) : ℚ) := by push_cast; linarith [hu2, hp, hr, hm2a.1]
        exact_mod_cast h
    have hmm3 : 0 ≤ v3 ∧ v3 ≤ q + r := by
      constructor
      · have h : ((0 : ℤ) : ℚ) ≤ ((v3 : ℤ) : ℚ) := by push_cast; linarith [hv3, hm3a.2]
        exact_mod_cast h
      · have h : ((v3 : ℤ) : ℚ) ≤ ((q + r : ℤ) : ℚ) := by push_cast; linarith [hv3, hq, hr, hm3a.1]
        exact_mod_cast h
    have hcore := w3j_ok_core j_1 j_2 j_3 m_1 m_2 m_3 JJ (p + q) (p + r) (q + r) u1 u2 v3
      hJJ ht1q ht2q ht3q hu1 hu2 hv3 hms (by omega) (by omega) (by omega) hmm1 hmm2 hmm3
    have i1 : JJ - (q + r) - u2 = -zA := by
      have h : ((JJ - (q + r) - u2 : ℤ) : ℚ) = ((-zA : ℤ) : ℚ) := by
        push_cast; linarith [hJJ, hq, hr, hu2, hzA]
      exact_mod_cast h
    have i2 : p + r - u2 = v2 := by
      have h : ((p + r - u2 : ℤ) : ℚ) = ((v2 : ℤ) : ℚ) := by
        push_cast; linarith [hp, hr, hu2, hv2]
      exact_mod_cast h
    have i3 : JJ - (p + q) - (q + r) + u1 = -zD := by
      have h : ((JJ - (p + q) - (q + r) + u1 : ℤ) : ℚ) = ((-zD : ℤ) : ℚ) := by
        push_cast; linarith [hJJ, hp, hq, hr, hu1, hzD]
      exact_mod_cast h
    have i5 : JJ - (p + r) - (q + r) + v3 = E := by
      have h : ((JJ - (p + r) - (q + r) + v3 : ℤ) : ℚ) = ((E : ℤ) : ℚ) := by
        push_cast; linarith [hJJ, hp, hq, hr, hv3, hE]
      exact_mod_cast h
    have i4 : JJ - (q + r) = p := by omega
    have i6 : JJ - (p + r) = q := by omega
    have i7 : JJ - (p + q) = r := by omega
    have i8 : p + q - u1 = v1 := by
      have h : ((p + q - u1 : ℤ) : ℚ) = ((v1 : ℤ) : ℚ) := by
        push_cast; linarith [hp, hq, hu1, hv1]
      exact_mod_cast h
    have i9 : q + r - v3 = u3 := by
      have h : ((q + r - v3 : ℤ) : ℚ) = ((u3 : ℤ) : ℚ) := by
        push_cast; linarith [hq, hr, hv3, hu3]
      exact_mod_cast h
    rw [i1, i2, i3, i5, i4, i6, i7, i8, i9] at hcore
    refine ⟨_, hcore, ?_⟩
    have hsum : w3jS (-zA) v2 u1 (-zD) p (max (-zA) (max (-zD) 0)) (min v2 (min u1 p)) =
        ((intRange (max (-zA) (max (-zD) 0)) (min v2 (min u1 p))).map (fun k =>
          ((-1 : ℚ)) ^ k / ((factI k : ℚ) * (factI (k + zA) : ℚ) * (factI (v2 - k) : ℚ) *
            (factI (u1 - k) : ℚ) * (factI (k + zD) : ℚ) * (factI (p - k) : ℚ)))).sum := by
      unfold w3jS
      refine congrArg (fun l : List ℚ => l.sum) (List.map_congr_left (fun k _ => ?_))
      rw [sub_neg_eq_add, sub_neg_eq_add]
    simp only [SqrtQ.val]
    rw [hsum]
    push_cast
    ring
  · refine ⟨⟨1 / 2304, 26542080 / 143⟩, w3j_concrete_264, ?_⟩
    rw [SqrtQ.val_sq _ (by norm_num)]
    norm_num

/-- Witness for claim C1, at `(2, 6, 4, 0, 0, 0)`. -/
theorem wigner_3j_formula_witness :
    ∃ s, wigner_3j 2 6 4 0 0 0 = .ok s ∧ s.val ^ 2 = (5 / 143 : ℝ) :=
  (wigner_3j_formula 2 6 4 0 0 0 4 0 8 2 2 6 6 4 4 12 (-4) 2 (-2)
    (by norm_num) (by norm_num) (by norm_num) (by norm_num) (by norm_num) (by norm_num)
    (by norm_num) (by norm_num) (by norm_num) (by norm_num) (by norm_num) (by norm_num)
    (by norm_num) (by norm_num) (by norm_num) (by norm_num) (by norm_num) (by norm_num)
    (by norm_num) (by norm_num)).2

/-!  ## The `racah` computing branch, in integer form

Witnesses: `t` values are the doubled inputs, `g` values the four triple sums
checked by the Delta coefficients.  When all twelve triangle differences are
nonnegative the function computes the textbook formula; when one is negative
the corresponding Delta coefficient is 0 and `racah` short-circuits to 0. -/

set_option maxHeartbeats 3000000 in
theorem racah_ok_core (aa bb cc dd ee ff : ℚ)
    (ta tb tc td te tf g1 g2 g3 g4 : ℤ)
    (hta : (ta : ℚ) = 2 * aa) (htb : (tb : ℚ) = 2 * bb) (htc : (tc : ℚ) = 2 * cc)
    (htd : (td : ℚ) = 2 * dd) (hte : (te : ℚ) = 2 * ee) (htf : (tf : ℚ) = 2 * ff)
    (hg1 : (g1 : ℚ) = aa + bb + ee) (hg2 : (g2 : ℚ) = cc + dd + ee)
    (hg3 : (g3 : ℚ) = aa + cc + ff) (hg4 : (g4 : ℚ) = bb + dd + ff)
    (hn1 : te ≤ g1) (hn2 : tb ≤ g1) (hn3 : ta ≤ g1)
    (hn4 : te ≤ g2) (hn5 : td ≤ g2) (hn6 : tc ≤ g2)
    (hn7 : tf ≤ g3) (hn8 : tc ≤ g3) (hn9 : ta ≤ g3)
    (hn10 : tf ≤ g4) (hn11 : td ≤ g4) (hn12 : tb ≤ g4) :
    racah aa bb cc dd ee ff = .ok
      ⟨racahS g1 g2 g3 g4 (g1 + g2 - te) (g1 + g4 - tb) (g1 + g3 - ta)
          (max g1 (max g2 (max g3 g4)))
          (min (g1 + g2 - te) (min (g1 + g4 - tb) (g1 + g3 - ta))) *
          (-1) ^ (g1 + g2 - te),
        (factI (g1 - te) : ℚ) * (factI (g1 - tb) : ℚ) * (factI (g1 - ta) : ℚ) /
            (factI (g1 + 1) : ℚ) *
          ((factI (g2 - te) : ℚ) * (factI (g2 - td) : ℚ) * (factI (g2 - tc) : ℚ) /
            (factI (g2 + 1) : ℚ)) *
          ((factI (g3 - tf) : ℚ) * (factI (g3 - tc) : ℚ) * (factI (g3 - ta) : ℚ) /
            (factI (g3 + 1) : ℚ)) *
          ((factI (g4 - tf) : ℚ) * (factI (g4 - td) : ℚ) * (factI (g4 - tb) : ℚ) /
            (factI (g4 + 1) : ℚ))⟩ := by
  have hs1 : ta + tb + te = 2 * g1 := by
    have h : ((ta + tb + te : ℤ) : ℚ) = ((2 * g1 : ℤ) : ℚ) := by
      push_cast; linarith [hta, htb, hte, hg1]
    exact_mod_cast h
  have hs2 : tc + td + te = 2 * g2 := by
    have h : ((tc + td + te : ℤ) : ℚ) = ((2 * g2 : ℤ) : ℚ) := by
      push_cast; linarith [htc, htd, hte, hg2]
    exact_mod_cast h
  have hs3 : ta + tc + tf = 2 * g3 := by
    have h : ((ta + tc + tf : ℤ) : ℚ) = ((2 * g3 : ℤ) : ℚ) := by
      push_cast; linarith [hta, htc, htf, hg3]
    exact_mod_cast h
  have hs4 : tb + td + tf = 2 * g4 := by
    have h : ((tb + td + tf : ℤ) : ℚ) = ((2 * g4 : ℤ) : ℚ) := by
      push_cast; linarith [htb, htd, htf, hg4]
    exact_mod_cast h
  have e1 := bigDelta_ok aa bb ee (g1 - te) (g1 - tb) (g1 - ta)
    (by push_cast; linarith [hg1, hte]) (by push_cast; linarith [hg1, htb])
    (by push_cast; linarith [hg1, hta]) (by omega) (by omega) (by omega)
  have e2 := bigDelta_ok cc dd ee (g2 - te) (g2 - td) (g2 - tc)
    (by push_cast; linarith [hg2, hte]) (by push_cast; linarith [hg2, htd])
    (by push_cast; linarith [hg2, htc]) (by omega) (by omega) (by omega)
  have e3 := bigDelta_ok aa cc ff (g3 - tf) (g3 - tc) (g3 - ta)
    (by push_cast; linarith [hg3, htf]) (by push_cast; linarith [hg3, htc])
    (by push_cast; linarith [hg3, hta]) (by omega) (by omega) (by omega)
  have e4 := bigDelta_ok bb dd ff (g4 - tf) (g4 - td) (g4 - tb)
    (by push_cast; linarith [hg4, htf]) (by push_cast; linarith [hg4, htd])
    (by push_cast; linarith [hg4, htb]) (by omega) (by omega) (by omega)
  rw [show g1 - te + (g1 - tb) + (g1 - ta) + 1 = g1 + 1 from by omega] at e1
  rw [show g2 - te + (g2 - td) + (g2 - tc) + 1 = g2 + 1 from by omega] at e2
  rw [show g3 - tf + (g3 - tc) + (g3 - ta) + 1 = g3 + 1 from by omega] at e3
  rw [show g4 - tf + (g4 - td) + (g4 - tb) + 1 = g4 + 1 from by omega] at e4
  unfold racah
  rw [e1, e2, e3, e4]
  have fpos : ∀ n : ℤ, (0 : ℚ) < (factI n : ℚ) := fun n => by
    exact_mod_cast Nat.factorial_pos n.toNat
  have hR1 : (0 : ℚ) < (factI (g1 - te) : ℚ) * (factI (g1 - tb) : ℚ) * (factI (g1 - ta) : ℚ) /
      (factI (g1 + 1) : ℚ) := by
    have := fpos (g1 - te)
    have := fpos (g1 - tb)
    have := fpos (g1 - ta)
    have := fpos (g1 + 1)
    positivity
  have hR2 : (0 : ℚ) < (factI (g2 - te) : ℚ) * (factI (g2 - td) : ℚ) * (factI (g2 - tc) : ℚ) /
      (factI (g2 + 1) : ℚ) := by
    have := fpos (g2 - te)
    have := fpos (g2 - td)
    have := fpos (g2 - tc)
    have := fpos (g2 + 1)
    positivity
  have hR3 : (0 : ℚ) < (factI (g3 - tf) : ℚ) * (factI (g3 - tc) : ℚ) * (factI (g3 - ta) : ℚ) /
      (factI (g3 + 1) : ℚ) := by
    have := fpos (g3 - tf)
    have := fpos (g3 - tc)
    have := fpos (g3 - ta)
    have := fpos (g3 + 1)
    positivity
  have hR4 : (0 : ℚ) < (factI (g4 - tf) : ℚ) * (factI (g4 - td) : ℚ) * (factI (g4 - tb) : ℚ) /
      (factI (g4 + 1) : ℚ) := by
    have := fpos (g4 - tf)
    have := fpos (g4 - td)
    have := fpos (g4 - tb)
    have := fpos (g4 + 1)
    positivity
  simp only [bind, Except.bind, SqrtQ.mul, mul_one, one_mul]
  rw [if_neg (by
    push_neg
    exact ⟨by norm_num, by positivity⟩)]
  have eimin : max (aa + bb + ee) (max (cc + dd + ee) (max (aa + cc + ff) (bb + dd + ff))) =
      ((max g1 (max g2 (max g3 g4)) : ℤ) : ℚ) := by
    rw [← hg1, ← hg2, ← hg3, ← hg4]
    simp [Int.cast_max]
  have eX1 : aa + bb + cc + dd = ((g1 + g2 - te : ℤ) : ℚ) := by
    push_cast; linarith [hg1, hg2, hte]
  have eX2 : aa + dd + ee + ff = ((g1 + g4 - tb : ℤ) : ℚ) := by
    push_cast; linarith [hg1, hg4, htb]
  have eX3 : bb + cc + ee + ff = ((g1 + g3 - ta : ℤ) : ℚ) := by
    push_cast; linarith [hg1, hg3, hta]
  have eimax : min (aa + bb + cc + dd) (min (aa + dd + ee + ff) (bb + cc + ee + ff)) =
      ((min (g1 + g2 - te) (min (g1 + g4 - tb) (g1 + g3 - ta)) : ℤ) : ℚ) := by
    rw [eX1, eX2, eX3]
    simp [Int.cast_min]
  rw [eimin, pyint_intCast, eimax, pyint_intCast]
  rw [if_neg (not_not_intro (by
    rw [show ((min (g1 + g2 - te) (min (g1 + g4 - tb) (g1 + g3 - ta)) : ℤ) : ℚ) + 1 =
        ((min (g1 + g2 - te) (min (g1 + g4 - tb) (g1 + g3 - ta)) + 1 : ℤ) : ℚ) from by push_cast; ring,
      eX1, eX2, eX3,
      show ((min (g1 + g2 - te) (min (g1 + g4 - tb) (g1 + g3 - ta)) + 1 : ℤ) : ℚ) ⊔
          (((g1 + g2 - te : ℤ) : ℚ) ⊔ (((g1 + g4 - tb : ℤ) : ℚ) ⊔ ((g1 + g3 - ta : ℤ) : ℚ))) =
        ((max (min (g1 + g2 - te) (min (g1 + g4 - tb) (g1 + g3 - ta)) + 1)
          (max (g1 + g2 - te) (max (g1 + g4 - tb) (g1 + g3 - ta))) : ℤ) : ℚ) from by
        simp [Int.cast_max], pyint_intCast]))]
  simp only [Except.pure, pure]
  rw [show aa + bb + cc + dd = ((g1 + g2 - te : ℤ) : ℚ) from eX1, pyint_intCast]
  refine congrArg Except.ok ?_
  refine congrArg₂ SqrtQ.mk ?_ rfl
  refine congrArg (fun x : ℚ => x * (-1) ^ (g1 + g2 - te)) ?_
  unfold racahS
  refine congrArg (fun l : List ℚ => l.sum) (List.map_congr_left (fun kk _ => ?_))
  rw [show (kk : ℚ) - aa - bb - ee = ((kk - g1 : ℤ) : ℚ) from by push_cast; linarith [hg1],
    show (kk : ℚ) - cc - dd - ee = ((kk - g2 : ℤ) : ℚ) from by push_cast; linarith [hg2],
    show (kk : ℚ) - aa - cc - ff = ((kk - g3 : ℤ) : ℚ) from by push_cast; linarith [hg3],
    show (kk : ℚ) - bb - dd - ff = ((kk - g4 : ℤ) : ℚ) from by push_cast; linarith [hg4],
    show ((g1 + g2 - te : ℤ) : ℚ) - (kk : ℚ) = ((g1 + g2 - te - kk : ℤ) : ℚ) from by
      push_cast; ring,
    show aa + dd + ee + ff - (kk : ℚ) = ((g1 + g4 - tb - kk : ℤ) : ℚ) from by
      push_cast; linarith [hg1, hg4, htb],
    show bb + cc + ee + ff - (kk : ℚ) = ((g1 + g3 - ta - kk : ℤ) : ℚ) from by
      push_cast; linarith [hg1, hg3, hta]]
  rw [qfactI_cast, qfactI_cast, qfactI_cast, qfactI_cast, qfactI_cast, qfactI_cast, qfactI_cast]

set_option maxHeartbeats 1000000 in
theorem racah_zero_core (aa bb cc dd ee ff : ℚ)
    (ta tb tc td te tf g1 g2 g3 g4 : ℤ)
    (hta : (ta : ℚ) = 2 * aa) (htb : (tb : ℚ) = 2 * bb) (htc : (tc : ℚ) = 2 * cc)
    (htd : (td : ℚ) = 2 * dd) (hte : (te : ℚ) = 2 * ee) (htf : (tf : ℚ) = 2 * ff)
    (hg1 : (g1 : ℚ) = aa + bb + ee) (hg2 : (g2 : ℚ) = cc + dd + ee)
    (hg3 : (g3 : ℚ) = aa + cc + ff) (hg4 : (g4 : ℚ) = bb + dd + ff)
    (hfail : ¬(te ≤ g1 ∧ tb ≤ g1 ∧ ta ≤ g1 ∧ te ≤ g2 ∧ td ≤ g2 ∧ tc ≤ g2 ∧
      tf ≤ g3 ∧ tc ≤ g3 ∧ ta ≤ g3 ∧ tf ≤ g4 ∧ td ≤ g4 ∧ tb ≤ g4)) :
    racah aa bb cc dd ee ff = .ok (SqrtQ.ofRat 0) := by
  have hD1 : ∃ s1, bigDelta aa bb ee = .ok s1 ∧ ((te ≤ g1 ∧ tb ≤ g1 ∧ ta ≤ g1) → s1.c = 1) ∧
      (¬(te ≤ g1 ∧ tb ≤ g1 ∧ ta ≤ g1) → s1.c = 0) := by
    by_cases hc : te ≤ g1 ∧ tb ≤ g1 ∧ ta ≤ g1
    · exact ⟨_, bigDelta_ok aa bb ee (g1 - te) (g1 - tb) (g1 - ta)
        (by push_cast; linarith [hg1, hte]) (by push_cast; linarith [hg1, htb])
        (by push_cast; linarith [hg1, hta]) (by omega) (by omega) (by omega),
        fun _ => rfl, fun hcon => absurd hc hcon⟩
    · have hd : g1 - te < 0 ∨ g1 - tb < 0 ∨ g1 - ta < 0 := by
        by_contra hno
        push_neg at hno
        exact hc ⟨by omega, by omega, by omega⟩
      exact ⟨_, bigDelta_zero aa bb ee (g1 - te) (g1 - tb) (g1 - ta)
        (by push_cast; linarith [hg1, hte]) (by push_cast; linarith [hg1, htb])
        (by push_cast; linarith [hg1, hta]) hd,
        fun hcon => absurd hcon hc, fun _ => rfl⟩
  have hD2 : ∃ s2, bigDelta cc dd ee = .ok s2 ∧ ((te ≤ g2 ∧ td ≤ g2 ∧ tc ≤ g2) → s2.c = 1) ∧
      (¬(te ≤ g2 ∧ td ≤ g2 ∧ tc ≤ g2) → s2.c = 0) := by
    by_cases hc : te ≤ g2 ∧ td ≤ g2 ∧ tc ≤ g2
    · exact ⟨_, bigDelta_ok cc dd ee (g2 - te) (g2 - td) (g2 - tc)
        (by push_cast; linarith [hg2, hte]) (by push_cast; linarith [hg2, htd])
        (by push_cast; linarith [hg2, htc]) (by omega) (by omega) (by omega),
        fun _ => rfl, fun hcon => absurd hc hcon⟩
    · have hd : g2 - te < 0 ∨ g2 - td < 0 ∨ g2 - tc < 0 := by
        by_contra hno
        push_neg at hno
        exact hc ⟨by omega, by omega, by omega⟩
      exact ⟨_, bigDelta_zero cc dd ee (g2 - te) (g2 - td) (g2 - tc)
        (by push_cast; linarith [hg2, hte]) (by push_cast; linarith [hg2, htd])
        (by push_cast; linarith [hg2, htc]) hd,
        fun hcon => absurd hcon hc, fun _ => rfl⟩
  have hD3 : ∃ s3, bigDelta aa cc ff = .ok s3 ∧ ((tf ≤ g3 ∧ tc ≤ g3 ∧ ta ≤ g3) → s3.c = 1) ∧
      (¬(tf ≤ g3 ∧ tc ≤ g3 ∧ ta ≤ g3) → s3.c = 0) := by
    by_cases hc : tf ≤ g3 ∧ tc ≤ g3 ∧ ta ≤ g3
    · exact ⟨_, bigDelta_ok aa cc ff (g3 - tf) (g3 - tc) (g3 - ta)
        (by push_cast; linarith [hg3, htf]) (by push_cast; linarith [hg3, htc])
        (by push_cast; linarith [hg3, hta]) (by omega) (by omega) (by omega),
        fun _ => rfl, fun hcon => absurd hc hcon⟩
    · have hd : g3 - tf < 0 ∨ g3 - tc < 0 ∨ g3 - ta < 0 := by
        by_contra hno
        push_neg at hno
        exact hc ⟨by omega, by omega, by omega⟩
      exact ⟨_, bigDelta_zero aa cc ff (g3 - tf) (g3 - tc) (g3 - ta)
        (by push_cast; linarith [hg3, htf]) (by push_cast; linarith [hg3, htc])
        (by push_cast; linarith [hg3, hta]) hd,
        fun hcon => absurd hcon hc, fun _ => rfl⟩
  have hD4 : ∃ s4, bigDelta bb dd ff = .ok s4 ∧ ((tf ≤ g4 ∧ td ≤ g4 ∧ tb ≤ g4) → s4.c = 1) ∧
      (¬(tf ≤ g4 ∧ td ≤ g4 ∧ tb ≤ g4) → s4.c = 0) := by
    by_cases hc : tf ≤ g4 ∧ td ≤ g4 ∧ tb ≤ g4
    · exact ⟨_, bigDelta_ok bb dd ff (g4 - tf) (g4 - td) (g4 - tb)
        (by push_cast; linarith [hg4, htf]) (by push_cast; linarith [hg4, htd])
        (by push_cast; linarith [hg4, htb]) (by omega) (by omega) (by omega),
        fun _ => rfl, fun hcon => absurd hc hcon⟩
    · have hd : g4 - tf < 0 ∨ g4 - td < 0 ∨ g4 - tb < 0 := by
        by_contra hno
        push_neg at hno
        exact hc ⟨by omega, by omega, by omega⟩
      exact ⟨_, bigDelta_zero bb dd ff (g4 - tf) (g4 - td) (g4 - tb)
        (by push_cast; linarith [hg4, htf]) (by push_cast; linarith [hg4, htd])
        (by push_cast; linarith [hg4, htb]) hd,
        fun hcon => absurd hcon hc, fun _ => rfl⟩
  obtain ⟨s1, hbd1, h1one, h1zero⟩ := hD1
  obtain ⟨s2, hbd2, h2one, h2zero⟩ := hD2
  obtain ⟨s3, hbd3, h3one, h3zero⟩ := hD3
  obtain ⟨s4, hbd4, h4one, h4zero⟩ := hD4
  have hczero : s1.c = 0 ∨ s2.c = 0 ∨ s3.c = 0 ∨ s4.c = 0 := by
    by_cases c1 : te ≤ g1 ∧ tb ≤ g1 ∧ ta ≤ g1
    · by_cases c2 : te ≤ g2 ∧ td ≤ g2 ∧ tc ≤ g2
      · by_cases c3 : tf ≤ g3 ∧ tc ≤ g3 ∧ ta ≤ g3
        · by_cases c4 : tf ≤ g4 ∧ td ≤ g4 ∧ tb ≤ g4
          · exact absurd ⟨c1.1, c1.2.1, c1.2.2, c2.1, c2.2.1, c2.2.2,
              c3.1, c3.2.1, c3.2.2, c4.1, c4.2.1, c4.2.2⟩ hfail
          · exact Or.inr (Or.inr (Or.inr (h4zero c4)))
        · exact Or.inr (Or.inr (Or.inl (h3zero c3)))
      · exact Or.inr (Or.inl (h2zero c2))
    · exact Or.inl (h1zero c1)
  unfold racah
  rw [hbd1, hbd2, hbd3, hbd4]
  simp only [bind, Except.bind, SqrtQ.mul]
  rw [if_pos (Or.inl (by rcases hczero with h | h | h | h <;> simp [h]))]
  rfl

/-!  ## Claim C3: `racah` short-circuit and summation formula -/

theorem racah_concrete_3 :
    racah 3 3 3 3 3 3 = .ok ⟨-20160000, 1 / 79659417600000000⟩ := by
  norm_num [racah, bigDelta, pyint, qfactI, factI, intRange, intRangeGo, Nat.factorial,
    SqrtQ.mul, bind, Except.bind, SqrtQ.ofRat, pure, Except.pure]

set_option maxHeartbeats 1000000 in
/-- Claim C3: `racah` forms the prefactor from the four Delta coefficients
`Δ(aa,bb,ee) Δ(cc,dd,ee) Δ(aa,cc,ff) Δ(bb,dd,ff)` and returns the exact 0 as
soon as a triangle fails (no summation); otherwise it returns
prefactor × [alternating sum over `k` from `max` of the four triple sums to
`min` of the three quadruple sums of `(-1)^k (k+1)!` over the seven
factorials] × `(-1)^(aa+bb+cc+dd)`; in particular
`racah 3 3 3 3 3 3 = -1/14` exactly. -/
theorem racah_formula (aa bb cc dd ee ff : ℚ)
    (ta tb tc td te tf g1 g2 g3 g4 X1 X2 X3 : ℤ)
    (hta : (ta : ℚ) = 2 * aa) (htb : (tb : ℚ) = 2 * bb) (htc : (tc : ℚ) = 2 * cc)
    (htd : (td : ℚ) = 2 * dd) (hte : (te : ℚ) = 2 * ee) (htf : (tf : ℚ) = 2 * ff)
    (hg1 : (g1 : ℚ) = aa + bb + ee) (hg2 : (g2 : ℚ) = cc + dd + ee)
    (hg3 : (g3 : ℚ) = aa + cc + ff) (hg4 : (g4 : ℚ) = bb + dd + ff)
    (hX1 : (X1 : ℚ) = aa + bb + cc + dd) (hX2 : (X2 : ℚ) = aa + dd + ee + ff)
    (hX3 : (X3 : ℚ) = bb + cc + ee + ff) :
    (¬(te ≤ g1 ∧ tb ≤ g1 ∧ ta ≤ g1 ∧ te ≤ g2 ∧ td ≤ g2 ∧ tc ≤ g2 ∧
        tf ≤ g3 ∧ tc ≤ g3 ∧ ta ≤ g3 ∧ tf ≤ g4 ∧ td ≤ g4 ∧ tb ≤ g4) →
      racah aa bb cc dd ee ff = .ok (SqrtQ.ofRat 0)) ∧
    ((te ≤ g1 ∧ tb ≤ g1 ∧ ta ≤ g1 ∧ te ≤ g2 ∧ td ≤ g2 ∧ tc ≤ g2 ∧
        tf ≤ g3 ∧ tc ≤ g3 ∧ ta ≤ g3 ∧ tf ≤ g4 ∧ td ≤ g4 ∧ tb ≤ g4) →
      ∃ s, racah aa bb cc dd ee ff = .ok s ∧
        s.val = Real.sqrt ((factI (g1 - te) : ℝ) * (factI (g1 - tb) : ℝ) * (factI (g1 - ta) : ℝ) /
            (factI (g1 + 1) : ℝ)) *
          Real.sqrt ((factI (g2 - te) : ℝ) * (factI (g2 - td) : ℝ) * (factI (g2 - tc) : ℝ) /
            (factI (g2 + 1) : ℝ)) *
          Real.sqrt ((factI (g3 - tf) : ℝ) * (factI (g3 - tc) : ℝ) * (factI (g3 - ta) : ℝ) /
            (factI (g3 + 1) : ℝ)) *
          Real.sqrt ((factI (g4 - tf) : ℝ) * (factI (g4 - td) : ℝ) * (factI (g4 - tb) : ℝ) /
            (factI (g4 + 1) : ℝ)) *
          ((racahS g1 g2 g3 g4 X1 X2 X3 (max g1 (max g2 (max g3 g4)))
            (min X1 (min X2 X3)) : ℚ) : ℝ) * (-1 : ℝ) ^ X1) ∧
    (∃ s, racah 3 3 3 3 3 3 = .ok s ∧ s.val = (-1 / 14 : ℝ)) := by
  have hXg1 : X1 = g1 + g2 - te := by
    have h : ((X1 : ℤ) : ℚ) = ((g1 + g2 - te : ℤ) : ℚ) := by
      push_cast; linarith [hX1, hg1, hg2, hte]
    exact_mod_cast h
  have hXg2 : X2 = g1 + g4 - tb := by
    have h : ((X2 : ℤ) : ℚ) = ((g1 + g4 - tb : ℤ) : ℚ) := by
      push_cast; linarith [hX2, hg1, hg4, htb]
    exact_mod_cast h
  have hXg3 : X3 = g1 + g3 - ta := by
    have h : ((X3 : ℤ) : ℚ) = ((g1 + g3 - ta : ℤ) : ℚ) := by
      push_cast; linarith [hX3, hg1, hg3, hta]
    exact_mod_cast h
  refine ⟨?_, ?_, ?_⟩
  · intro hfail
    exact racah_zero_core aa bb cc dd ee ff ta tb tc td te tf g1 g2 g3 g4
      hta htb htc htd hte htf hg1 hg2 hg3 hg4 hfail
  · intro hok
    obtain ⟨n1, n2, n3, n4, n5, n6, n7, n8, n9, n10, n11, n12⟩ := hok
    have hcore := racah_ok_core aa bb cc dd ee ff ta tb tc td te tf g1 g2 g3 g4
      hta htb htc htd hte htf hg1 hg2 hg3 hg4 n1 n2 n3 n4 n5 n6 n7 n8 n9 n10 n11 n12
    rw [← hXg1, ← hXg2, ← hXg3] at hcore
    refine ⟨_, hcore, ?_⟩
    have fpos : ∀ n : ℤ, (0 : ℝ) ≤ (factI n : ℝ) := fun n => by positivity
    simp only [SqrtQ.val]
    push_cast
    rw [show (factI (g1 - te) : ℝ) * (factI (g1 - tb) : ℝ) * (factI (g1 - ta) : ℝ) /
          (factI (g1 + 1) : ℝ) *
        ((factI (g2 - te) : ℝ) * (factI (g2 - td) : ℝ) * (factI (g2 - tc) : ℝ) /
          (factI (g2 + 1) : ℝ)) *
        ((factI (g3 - tf) : ℝ) * (factI (g3 - tc) : ℝ) * (factI (g3 - ta) : ℝ) /
          (factI (g3 + 1) : ℝ)) *
        ((factI (g4 - tf) : ℝ) * (factI (g4 - td) : ℝ) * (factI (g4 - tb) : ℝ) /
          (factI (g4 + 1) : ℝ)) =
        (factI (g1 - te) : ℝ) * (factI (g1 - tb) : ℝ) * (factI (g1 - ta) : ℝ) /
          (factI (g1 + 1) : ℝ) *
        (((factI (g2 - te) : ℝ) * (factI (g2 - td) : ℝ) * (factI (g2 - tc) : ℝ) /
          (factI (g2 + 1) : ℝ)) *
        (((factI (g3 - tf) : ℝ) * (factI (g3 - tc) : ℝ) * (factI (g3 - ta) : ℝ) /
          (factI (g3 + 1) : ℝ)) *
        ((factI (g4 - tf) : ℝ) * (factI (g4 - td) : ℝ) * (factI (g4 - tb) : ℝ) /
          (factI (g4 + 1) : ℝ)))) from by ring]
    rw [Real.sqrt_mul (by positivity), Real.sqrt_mul (by positivity), Real.sqrt_mul (by positivity)]
    ring
  · refine ⟨⟨-20160000, 1 / 79659417600000000⟩, racah_concrete_3, ?_⟩
    rw [SqrtQ.val_eq_of_sq _ (1 / 282240000) (by norm_num) (by norm_num)]
    norm_num

/-- Witness for claim C3 at `(3, 3, 3, 3, 3, 3)`. -/
theorem racah_formula_witness : ∃ s, racah 3 3 3 3 3 3 = .ok s ∧ s.val = (-1 / 14 : ℝ) :=
  (racah_formula 3 3 3 3 3 3 6 6 6 6 6 6 9 9 9 9 12 12 12
    (by norm_num) (by norm_num) (by norm_num) (by norm_num) (by norm_num) (by norm_num)
    (by norm_num) (by norm_num) (by norm_num) (by norm_num) (by norm_num) (by norm_num)
    (by norm_num)).2.2

/-!  ## Claim C6: `wigner_6j` is a phase times `racah` -/

set_option maxHeartbeats 1000000 in
theorem racah_concrete_5 :
    racah 5 5 5 5 5 5 = .ok ⟨2819345937408, 1 / 21493315935962400462162886656⟩ := by
  norm_num [racah, bigDelta, pyint, qfactI, factI, intRange, intRangeGo, Nat.factorial,
    SqrtQ.mul, bind, Except.bind, SqrtQ.ofRat, pure, Except.pure]

/-- Claim C6: for every input `wigner_6j` equals
`(-1)^(j_1+j_2+j_4+j_5) * racah(j_1, j_2, j_5, j_4, j_3, j_6)` — the same
error and zero behaviour, the phase applied to the coefficient whenever the
exponent is an integer (it always is when `racah` returns a value); in
particular `wigner_6j 3 3 3 3 3 3 = -1/14` and
`wigner_6j 5 5 5 5 5 5 = 1/52` exactly. -/
theorem wigner_6j_phase_racah (j_1 j_2 j_3 j_4 j_5 j_6 : ℚ) :
    (∀ e : WErr, wigner_6j j_1 j_2 j_3 j_4 j_5 j_6 = .error e ↔
      racah j_1 j_2 j_5 j_4 j_3 j_6 = .error e) ∧
    (∀ E : ℤ, (E : ℚ) = j_1 + j_2 + j_4 + j_5 →
      wigner_6j j_1 j_2 j_3 j_4 j_5 j_6 =
        (racah j_1 j_2 j_5 j_4 j_3 j_6).map (fun s => ⟨(-1) ^ E * s.c, s.r⟩)) ∧
    (∃ s, wigner_6j 3 3 3 3 3 3 = .ok s ∧ s.val = (-1 / 14 : ℝ)) ∧
    (∃ s, wigner_6j 5 5 5 5 5 5 = .ok s ∧ s.val = (1 / 52 : ℝ)) := by
  refine ⟨?_, ?_, ?_, ?_⟩
  · intro e
    unfold wigner_6j
    cases hR : racah j_1 j_2 j_5 j_4 j_3 j_6 <;> simp [Except.map]
  · intro E hE
    unfold wigner_6j
    rw [show j_1 + j_2 + j_4 + j_5 = ((E : ℤ) : ℚ) from hE.symm, pyint_intCast]
  · refine ⟨⟨-20160000, 1 / 79659417600000000⟩, ?_, ?_⟩
    · unfold wigner_6j
      rw [racah_concrete_3]
      simp only [Except.map]
      norm_num [pyint]
    · rw [SqrtQ.val_eq_of_sq _ (1 / 282240000) (by norm_num) (by norm_num)]
      norm_num
  · refine ⟨⟨2819345937408, 1 / 21493315935962400462162886656⟩, ?_, ?_⟩
    · unfold wigner_6j
      rw [racah_concrete_5]
      simp only [Except.map]
      norm_num [pyint]
    · rw [SqrtQ.val_eq_of_sq _ (1 / 146605988745216) (by norm_num) (by norm_num)]
      norm_num

/-- Witness for claim C6: the phase identity at `(3,3,3,3,3,3)`. -/
theorem wigner_6j_phase_racah_witness :
    wigner_6j 3 3 3 3 3 3 = (racah 3 3 3 3 3 3).map (fun s => ⟨(-1) ^ (12 : ℤ) * s.c, s.r⟩) :=
  (wigner_6j_phase_racah 3 3 3 3 3 3).2.1 12 (by norm_num)

/-!  ## Claim C7: `clebsch_gordan` is a phase and normalization times `wigner_3j` -/

set_option maxHeartbeats 2000000 in
theorem cg_concrete :
    clebsch_gordan (3 / 2) (1 / 2) 1 (-1 / 2) (1 / 2) 0 = .ok ⟨-1, 1 / 2⟩ := by
  norm_num [clebsch_gordan, wigner_3j, pyint, qfactI, factI, intRange, intRangeGo,
    Nat.factorial, Except.map, abs_of_nonneg]

/-- Claim C7: for every input `clebsch_gordan` equals
`(-1)^(j_1-j_2+m_3) * sqrt(2*j_3+1) * wigner_3j(j_1, j_2, j_3, m_1, m_2, -m_3)`
bit for bit: it performs no validation of its own and inherits the error and
zero semantics of `wigner_3j`, and the phase is applied exactly whenever the
exponent is an integer; in particular
`clebsch_gordan (3/2) (1/2) 1 (-1/2) (1/2) 0 = -sqrt 3 * sqrt (1/6)`. -/
theorem clebsch_gordan_phase_w3j (j_1 j_2 j_3 m_1 m_2 m_3 : ℚ) :
    (∀ e : WErr, clebsch_gordan j_1 j_2 j_3 m_1 m_2 m_3 = .error e ↔
      wigner_3j j_1 j_2 j_3 m_1 m_2 (-m_3) = .error e) ∧
    (∀ E : ℤ, (E : ℚ) = j_1 - j_2 + m_3 →
      clebsch_gordan j_1 j_2 j_3 m_1 m_2 m_3 =
        (wigner_3j j_1 j_2 j_3 m_1 m_2 (-m_3)).map
          (fun s => ⟨(-1) ^ E * s.c, (2 * j_3 + 1) * s.r⟩)) ∧
    (∃ s, clebsch_gordan (3 / 2) (1 / 2) 1 (-1 / 2) (1 / 2) 0 = .ok s ∧
      s.val = -(Real.sqrt 3 * Real.sqrt (1 / 6))) := by
  refine ⟨?_, ?_, ?_⟩
  · intro e
    unfold clebsch_gordan
    cases hR : wigner_3j j_1 j_2 j_3 m_1 m_2 (-m_3) <;> simp [Except.map]
  · intro E hE
    unfold clebsch_gordan
    rw [show j_1 - j_2 + m_3 = ((E : ℤ) : ℚ) from hE.symm, pyint_intCast]
  · refine ⟨⟨-1, 1 / 2⟩, cg_concrete, ?_⟩
    simp only [SqrtQ.val]
    rw [← Real.sqrt_mul (by norm_num : (0 : ℝ) ≤ 3)]
    norm_num

/-- Witness for claim C7: the phase identity at
`(3/2, 1/2, 1, -1/2, 1/2, 0)` with integer exponent 1. -/
theorem clebsch_gordan_phase_w3j_witness :
    clebsch_gordan (3 / 2) (1 / 2) 1 (-1 / 2) (1 / 2) 0 =
      (wigner_3j (3 / 2) (1 / 2) 1 (-1 / 2) (1 / 2) (-0)).map
        (fun s => ⟨(-1) ^ (1 : ℤ) * s.c, (2 * 1 + 1) * s.r⟩) :=
  (clebsch_gordan_phase_w3j (3 / 2) (1 / 2) 1 (-1 / 2) (1 / 2) 0).2.1 1 (by norm_num)

/-!  ## Claim C4: `gaunt` selection-rule zeros and formula -/

theorem gaunt_concrete_1 : gaunt 1 0 1 1 0 (-1) = ⟨-1 / 6, 36⟩ := by
  norm_num [gaunt, factI, intRange, intRangeGo, Nat.factorial]

theorem gaunt_concrete_2 : gaunt 1 0 1 1 0 0 = SqrtQ.ofRat 0 := by
  norm_num [gaunt, SqrtQ.ofRat]

theorem gaunt_zero_of_selection (l_1 l_2 l_3 m_1 m_2 m_3 : ℤ)
    (hsel : l_1 + l_2 - l_3 < 0 ∨ l_1 - l_2 + l_3 < 0 ∨ -l_1 + l_2 + l_3 < 0 ∨
      (l_1 + l_2 + l_3) % 2 ≠ 0 ∨ m_1 + m_2 + m_3 ≠ 0 ∨
      |m_1| > l_1 ∨ |m_2| > l_2 ∨ |m_3| > l_3) :
    gaunt l_1 l_2 l_3 m_1 m_2 m_3 = SqrtQ.ofRat 0 := by
  unfold gaunt
  by_cases h1 : l_1 + l_2 - l_3 < 0
  · rw [if_pos h1]
  · rw [if_neg h1]
    by_cases h2 : l_1 - l_2 + l_3 < 0
    · rw [if_pos h2]
    · rw [if_neg h2]
      by_cases h3 : -l_1 + l_2 + l_3 < 0
      · rw [if_pos h3]
      · rw [if_neg h3]
        by_cases h4 : (l_1 + l_2 + l_3) % 2 ≠ 0
        · rw [if_pos h4]
        · rw [if_neg h4]
          by_cases h5 : m_1 + m_2 + m_3 ≠ 0
          · rw [if_pos h5]
          · rw [if_neg h5]
            have h6 : |m_1| > l_1 ∨ |m_2| > l_2 ∨ |m_3| > l_3 := by tauto
            rw [if_pos h6]

set_option maxHeartbeats 1000000 in
/-- Claim C4: for exact integer inputs, `gaunt` returns the exact value 0
whenever the triangle inequality fails, `l_1+l_2+l_3` is odd, the m-sum is
nonzero or some `|m_i| > l_i`; and on the remaining inputs it computes the
LdB1982 value `sqrt(radicand) * prefac * sum * (-1)^(L+l_3+m_1-m_2)` with
`L = (l_1+l_2+l_3)/2`; in particular
`gaunt 1 0 1 1 0 (-1) = -1/(2*sqrt pi)` and `gaunt 1 0 1 1 0 0 = 0`. -/
theorem gaunt_selection_and_formula (l_1 l_2 l_3 m_1 m_2 m_3 : ℤ) :
    ((l_1 + l_2 - l_3 < 0 ∨ l_1 - l_2 + l_3 < 0 ∨ -l_1 + l_2 + l_3 < 0 ∨
        (l_1 + l_2 + l_3) % 2 ≠ 0 ∨ m_1 + m_2 + m_3 ≠ 0 ∨
        |m_1| > l_1 ∨ |m_2| > l_2 ∨ |m_3| > l_3) →
      gaunt l_1 l_2 l_3 m_1 m_2 m_3 = SqrtQ.ofRat 0 ∧
      gauntVal (gaunt l_1 l_2 l_3 m_1 m_2 m_3) = 0) ∧
    (∀ L : ℤ, 2 * L = l_1 + l_2 + l_3 →
      0 ≤ l_1 + l_2 - l_3 → 0 ≤ l_1 - l_2 + l_3 → 0 ≤ -l_1 + l_2 + l_3 →
      m_1 + m_2 + m_3 = 0 → |m_1| ≤ l_1 → |m_2| ≤ l_2 → |m_3| ≤ l_3 →
      gauntVal (gaunt l_1 l_2 l_3 m_1 m_2 m_3) =
        Real.sqrt ((((2 * l_1 + 1) * (2 * l_2 + 1) * (2 * l_3 + 1) : ℤ) : ℝ) *
            (factI (l_1 - m_1) : ℝ) * (factI (l_1 + m_1) : ℝ) * (factI (l_2 - m_2) : ℝ) *
            (factI (l_2 + m_2) : ℝ) * (factI (l_3 - m_3) : ℝ) * (factI (l_3 + m_3) : ℝ) /
            (4 * Real.pi)) *
          (((factI L : ℚ) * (factI (l_2 - l_1 + l_3) : ℚ) * (factI (l_1 - l_2 + l_3) : ℚ) *
            (factI (l_1 + l_2 - l_3) : ℚ) / (factI (2 * L + 1) : ℚ) /
            ((factI (L - l_1) : ℚ) * (factI (L - l_2) : ℚ) * (factI (L - l_3) : ℚ)) : ℚ) : ℝ) *
          ((((intRange (max (-l_3 + l_1 + m_2) (max (-l_3 + l_2 - m_1) 0))
              (min (l_2 + m_2) (min (l_1 - m_1) (l_1 + l_2 - l_3)))).map (fun i =>
            ((-1 : ℚ)) ^ i / ((factI i : ℚ) * (factI (i + l_3 - l_1 - m_2) : ℚ) *
              (factI (l_2 + m_2 - i) : ℚ) * (factI (l_1 - i - m_1) : ℚ) *
              (factI (i + l_3 - l_2 + m_1) : ℚ) *
              (factI (l_1 + l_2 - l_3 - i) : ℚ)))).sum : ℚ) : ℝ) *
          (-1 : ℝ) ^ (L + l_3 + m_1 - m_2)) ∧
    (gauntVal (gaunt 1 0 1 1 0 (-1)) = -1 / (2 * Real.sqrt Real.pi)) ∧
    (gaunt 1 0 1 1 0 0 = SqrtQ.ofRat 0) := by
  refine ⟨?_, ?_, ?_, gaunt_concrete_2⟩
  · intro hsel
    have hz := gaunt_zero_of_selection l_1 l_2 l_3 m_1 m_2 m_3 hsel
    refine ⟨hz, ?_⟩
    rw [hz]
    simp [gauntVal, SqrtQ.ofRat]
  · intro L hL h1 h2 h3 h5 h6 h7 h8
    have hpar : (l_1 + l_2 + l_3) % 2 = 0 := by omega
    have hLdiv : (l_1 + l_2 + l_3) / 2 = L := by omega
    unfold gaunt
    rw [if_neg (not_lt.2 h1), if_neg (not_lt.2 h2), if_neg (not_lt.2 h3),
      if_neg (not_not_intro hpar), if_neg (not_not_intro h5),
      if_neg (by push_neg; exact ⟨h6, h7, h8⟩)]
    dsimp only
    rw [hLdiv]
    simp only [gauntVal]
    push_cast
    ring
  · rw [gaunt_concrete_1]
    simp only [gauntVal]
    have hpi : (0 : ℝ) < Real.pi := Real.pi_pos
    have hsp : (0 : ℝ) < Real.sqrt Real.pi := Real.sqrt_pos.2 hpi
    have key : ((36 : ℚ) : ℝ) / (4 * Real.pi) = (3 / Real.sqrt Real.pi) ^ 2 := by
      rw [div_pow, show ((3 : ℝ)) ^ 2 = 9 from by norm_num, Real.sq_sqrt hpi.le]
      push_cast
      field_simp
      ring
    rw [key, Real.sqrt_sq (by positivity)]
    push_cast
    field_simp
    ring

/-- Witness for claim C4: the odd-sum selection rule at `(1, 2, 2, 1, 0, -1)`
(the trac 14766 doctest input). -/
theorem gaunt_selection_and_formula_witness :
    gaunt 1 2 2 1 0 (-1) = SqrtQ.ofRat 0 ∧ gauntVal (gaunt 1 2 2 1 0 (-1)) = 0 :=
  (gaunt_selection_and_formula 1 2 2 1 0 (-1)).1
    (Or.inr (Or.inr (Or.inr (Or.inl (by decide)))))

/-!  ## Claim C5: `wigner_9j` as a sum of products of three `racah` values -/

theorem list_mapM_ok (l : List ℤ) (f : ℤ → Except WErr SqrtQ) (g : ℤ → SqrtQ)
    (h : ∀ x ∈ l, f x = .ok (g x)) : l.mapM f = .ok (l.map g) := by
  induction l with
  | nil => rfl
  | cons a l ih =>
    rw [List.mapM_cons, h a (List.mem_cons_self a l),
      ih (fun x hx => h x (List.mem_cons_of_mem a hx))]
    rfl

theorem racah_isOk (aa bb cc dd ee ff : ℚ)
    (ta tb tc td te tf g1 g2 g3 g4 : ℤ)
    (hta : (ta : ℚ) = 2 * aa) (htb : (tb : ℚ) = 2 * bb) (htc : (tc : ℚ) = 2 * cc)
    (htd : (td : ℚ) = 2 * dd) (hte : (te : ℚ) = 2 * ee) (htf : (tf : ℚ) = 2 * ff)
    (hg1 : (g1 : ℚ) = aa + bb + ee) (hg2 : (g2 : ℚ) = cc + dd + ee)
    (hg3 : (g3 : ℚ) = aa + cc + ff) (hg4 : (g4 : ℚ) = bb + dd + ff) :
    ∃ s, racah aa bb cc dd ee ff = .ok s ∧ 0 ≤ s.r := by
  by_cases hall : te ≤ g1 ∧ tb ≤ g1 ∧ ta ≤ g1 ∧ te ≤ g2 ∧ td ≤ g2 ∧ tc ≤ g2 ∧
      tf ≤ g3 ∧ tc ≤ g3 ∧ ta ≤ g3 ∧ tf ≤ g4 ∧ td ≤ g4 ∧ tb ≤ g4
  · obtain ⟨n1, n2, n3, n4, n5, n6, n7, n8, n9, n10, n11, n12⟩ := hall
    refine ⟨_, racah_ok_core aa bb cc dd ee ff ta tb tc td te tf g1 g2 g3 g4
      hta htb htc htd hte htf hg1 hg2 hg3 hg4 n1 n2 n3 n4 n5 n6 n7 n8 n9 n10 n11 n12, ?_⟩
    have fpos : ∀ n : ℤ, (0 : ℚ) < (factI n : ℚ) := fun n => by
      exact_mod_cast Nat.factorial_pos n.toNat
    have p1 := fpos (g1 - te)
    have p2 := fpos (g1 - tb)
    have p3 := fpos (g1 - ta)
    have p4 := fpos (g1 + 1)
    have p5 := fpos (g2 - te)
    have p6 := fpos (g2 - td)
    have p7 := fpos (g2 - tc)
    have p8 := fpos (g2 + 1)
    have p9 := fpos (g3 - tf)
    have p10 := fpos (g3 - tc)
    have p11 := fpos (g3 - ta)
    have p12 := fpos (g3 + 1)
    have p13 := fpos (g4 - tf)
    have p14 := fpos (g4 - td)
    have p15 := fpos (g4 - tb)
    have p16 := fpos (g4 + 1)
    positivity
  · exact ⟨_, racah_zero_core aa bb cc dd ee ff ta tb tc td te tf g1 g2 g3 g4
      hta htb htc htd hte htf hg1 hg2 hg3 hg4 hall, by norm_num [SqrtQ.ofRat]⟩

/-- Claim C5: for inputs whose doubled spins and all six triad sums (plus the
three pair sums bounding `k`) are integers — so each inner `racah` call passes
its own validation — `wigner_9j j_1 … j_9` returns `ok` of a list of exact terms
whose real value is the sum over integer `k` from `0` to
`min (j_1+j_9) (min (j_2+j_6) (j_4+j_8))` of
`(2k+1) * racah j_1 j_2 j_9 j_6 j_3 k * racah j_4 j_6 j_8 j_2 j_5 k *
racah j_1 j_4 j_9 j_8 j_7 k`, with no selection-rule short-circuit of its own;
and a term is `0` exactly when one of its three Racah factors is `0`. -/
theorem wigner_9j_sum_of_racah (j_1 j_2 j_3 j_4 j_5 j_6 j_7 j_8 j_9 : ℚ)
    (t1 t2 t3 t4 t5 t6 t7 t8 t9 : ℤ)
    (a123 a369 a456 a258 a147 a789 b19 b26 b48 : ℤ)
    (ht1 : (t1 : ℚ) = 2 * j_1) (ht2 : (t2 : ℚ) = 2 * j_2) (ht3 : (t3 : ℚ) = 2 * j_3)
    (ht4 : (t4 : ℚ) = 2 * j_4) (ht5 : (t5 : ℚ) = 2 * j_5) (ht6 : (t6 : ℚ) = 2 * j_6)
    (ht7 : (t7 : ℚ) = 2 * j_7) (ht8 : (t8 : ℚ) = 2 * j_8) (ht9 : (t9 : ℚ) = 2 * j_9)
    (ha123 : (a123 : ℚ) = j_1 + j_2 + j_3) (ha369 : (a369 : ℚ) = j_9 + j_6 + j_3)
    (ha456 : (a456 : ℚ) = j_4 + j_6 + j_5) (ha258 : (a258 : ℚ) = j_8 + j_2 + j_5)
    (ha147 : (a147 : ℚ) = j_1 + j_4 + j_7) (ha789 : (a789 : ℚ) = j_9 + j_8 + j_7)
    (hb19 : (b19 : ℚ) = j_1 + j_9) (hb26 : (b26 : ℚ) = j_2 + j_6)
    (hb48 : (b48 : ℚ) = j_4 + j_8) :
    ∃ L, wigner_9j j_1 j_2 j_3 j_4 j_5 j_6 j_7 j_8 j_9 = .ok L ∧
      symListVal L =
        ((intRange 0 (min b19 (min b26 b48))).map (fun (k : ℤ) =>
          (2 * (k : ℝ) + 1) * exVal (racah j_1 j_2 j_9 j_6 j_3 (k : ℚ)) *
            exVal (racah j_4 j_6 j_8 j_2 j_5 (k : ℚ)) *
            exVal (racah j_1 j_4 j_9 j_8 j_7 (k : ℚ)))).sum ∧
      ∀ k : ℤ, ∀ s1 s2 s3 : SqrtQ,
        racah j_1 j_2 j_9 j_6 j_3 (k : ℚ) = .ok s1 →
        racah j_4 j_6 j_8 j_2 j_5 (k : ℚ) = .ok s2 →
        racah j_1 j_4 j_9 j_8 j_7 (k : ℚ) = .ok s3 →
        ((2 * (k : ℝ) + 1) * s1.val * s2.val * s3.val = 0 ↔
          s1.val = 0 ∨ s2.val = 0 ∨ s3.val = 0) := by
  have h1 : ∀ k : ℤ, ∃ s, racah j_1 j_2 j_9 j_6 j_3 (k : ℚ) = .ok s ∧ 0 ≤ s.r := fun k =>
    racah_isOk j_1 j_2 j_9 j_6 j_3 (k : ℚ) t1 t2 t9 t6 t3 (2 * k) a123 a369 (b19 + k) (b26 + k)
      ht1 ht2 ht9 ht6 ht3 (by push_cast; ring) ha123 ha369
      (by push_cast; rw [hb19]) (by push_cast; rw [hb26])
  have h2 : ∀ k : ℤ, ∃ s, racah j_4 j_6 j_8 j_2 j_5 (k : ℚ) = .ok s ∧ 0 ≤ s.r := fun k =>
    racah_isOk j_4 j_6 j_8 j_2 j_5 (k : ℚ) t4 t6 t8 t2 t5 (2 * k) a456 a258 (b48 + k) (b26 + k)
      ht4 ht6 ht8 ht2 ht5 (by push_cast; ring) ha456 ha258
      (by push_cast; rw [hb48]) (by push_cast; linarith)
  have h3 : ∀ k : ℤ, ∃ s, racah j_1 j_4 j_9 j_8 j_7 (k : ℚ) = .ok s ∧ 0 ≤ s.r := fun k =>
    racah_isOk j_1 j_4 j_9 j_8 j_7 (k : ℚ) t1 t4 t9 t8 t7 (2 * k) a147 a789 (b19 + k) (b48 + k)
      ht1 ht4 ht9 ht8 ht7 (by push_cast; ring) ha147 ha789
      (by push_cast; rw [hb19]) (by push_cast; rw [hb48])
  choose s1 hs1 hr1 using h1
  choose s2 hs2 hr2 using h2
  choose s3 hs3 hr3 using h3
  have himax : pyint (min (j_1 + j_9) (min (j_2 + j_6) (j_4 + j_8)))
      = min b19 (min b26 b48) := by
    rw [← hb19, ← hb26, ← hb48, ← Int.cast_min, ← Int.cast_min, pyint_intCast]
  refine ⟨(intRange 0 (min b19 (min b26 b48))).map
      (fun (k : ℤ) => (⟨(2 * (k : ℚ) + 1) * (s1 k).c * (s2 k).c * (s3 k).c,
        (s1 k).r * (s2 k).r * (s3 k).r⟩ : SqrtQ)), ?_, ?_, ?_⟩
  · simp only [wigner_9j]
    rw [himax]
    refine list_mapM_ok _ _ _ (fun x _ => ?_)
    simp only [hs1 x, hs2 x, hs3 x, bind, Except.bind, pure, Except.pure]
  · rw [symListVal, List.map_map]
    refine congrArg List.sum (List.map_congr_left (fun k _ => ?_))
    simp only [Function.comp_apply, hs1 k, hs2 k, hs3 k, exVal, SqrtQ.val]
    have hnn1 : (0 : ℝ) ≤ ((s1 k).r : ℝ) := by exact_mod_cast hr1 k
    have hnn2 : (0 : ℝ) ≤ ((s2 k).r : ℝ) := by exact_mod_cast hr2 k
    push_cast
    rw [Real.sqrt_mul (mul_nonneg hnn1 hnn2), Real.sqrt_mul hnn1]
    ring
  · intro k u1 u2 u3 e1 e2 e3
    have hk : (2 * (k : ℝ) + 1) ≠ 0 := by
      have hz : ((2 * k + 1 : ℤ) : ℝ) ≠ 0 := Int.cast_ne_zero.2 (by omega)
      push_cast at hz
      exact hz
    rw [mul_eq_zero, mul_eq_zero, mul_eq_zero]
    simp only [hk, false_or]
    tauto

/-- Witness for C5 at `j_1 = … = j_9 = 1`. -/
theorem wigner_9j_sum_of_racah_witness :
    ∃ L, wigner_9j 1 1 1 1 1 1 1 1 1 = .ok L ∧
      symListVal L =
        ((intRange 0 (min 2 (min 2 2))).map (fun (k : ℤ) =>
          (2 * (k : ℝ) + 1) * exVal (racah 1 1 1 1 1 (k : ℚ)) *
            exVal (racah 1 1 1 1 1 (k : ℚ)) *
            exVal (racah 1 1 1 1 1 (k : ℚ)))).sum ∧
      ∀ k : ℤ, ∀ s1 s2 s3 : SqrtQ,
        racah 1 1 1 1 1 (k : ℚ) = .ok s1 →
        racah 1 1 1 1 1 (k : ℚ) = .ok s2 →
        racah 1 1 1 1 1 (k : ℚ) = .ok s3 →
        ((2 * (k : ℝ) + 1) * s1.val * s2.val * s3.val = 0 ↔
          s1.val = 0 ∨ s2.val = 0 ∨ s3.val = 0) :=
  wigner_9j_sum_of_racah 1 1 1 1 1 1 1 1 1 2 2 2 2 2 2 2 2 2 3 3 3 3 3 3 2 2 2
    (by norm_num) (by norm_num) (by norm_num) (by norm_num) (by norm_num) (by norm_num)
    (by norm_num) (by norm_num) (by norm_num) (by norm_num) (by norm_num) (by norm_num)
    (by norm_num) (by norm_num) (by norm_num) (by norm_num) (by norm_num) (by norm_num)

/-!  ## Claim C9: symmetries of `wigner_3j` for aligned inputs

The permutation identities are proved for every input whose doubled spins
`2*j_i`, differences `j_i - m_i` and total `j_1+j_2+j_3` are integers: on such
inputs no `int()` truncation garbage arises, the selection-rule branch is
permutation-invariant, and the computing branch transforms by kernel
reflection and slot swaps. -/

theorem val_negOnePow_helper (c1 c2 r1 r2 : ℚ) (J : ℤ) (hc : c1 = (-1) ^ J * c2)
    (hr : r1 = r2) :
    SqrtQ.val ⟨c1, r1⟩ = (-1 : ℝ) ^ J * SqrtQ.val ⟨c2, r2⟩ := by
  subst hc hr
  simp only [SqrtQ.val]
  push_cast
  ring

set_option maxHeartbeats 2000000 in
theorem w3j_T12 (j_1 j_2 j_3 m_1 m_2 m_3 : ℚ) (J t1 t2 t3 d1 d2 d3 : ℤ)
    (hJ : (J : ℚ) = j_1 + j_2 + j_3)
    (ht1 : (t1 : ℚ) = 2 * j_1) (ht2 : (t2 : ℚ) = 2 * j_2) (ht3 : (t3 : ℚ) = 2 * j_3)
    (hd1 : (d1 : ℚ) = j_1 - m_1) (hd2 : (d2 : ℚ) = j_2 - m_2) (hd3 : (d3 : ℚ) = j_3 - m_3) :
    exVal (wigner_3j j_1 j_2 j_3 m_1 m_2 m_3) =
      (-1 : ℝ) ^ J * exVal (wigner_3j j_2 j_1 j_3 m_2 m_1 m_3) := by
  have hts : t1 + t2 + t3 = 2 * J := by
    have hq : ((t1 + t2 + t3 : ℤ) : ℚ) = ((2 * J : ℤ) : ℚ) := by push_cast; linarith
    exact_mod_cast hq
  have hJ2 : (J : ℚ) = j_2 + j_1 + j_3 := by linarith
  by_cases hsel : m_1 + m_2 + m_3 = 0 ∧ t3 ≤ J ∧ t2 ≤ J ∧ t1 ≤ J ∧
      (0 ≤ d1 ∧ d1 ≤ t1) ∧ (0 ≤ d2 ∧ d2 ≤ t2) ∧ (0 ≤ d3 ∧ d3 ≤ t3)
  · obtain ⟨hms, htr1, htr2, htr3, hm1, hm2, hm3⟩ := hsel
    rw [w3j_ok_core j_1 j_2 j_3 m_1 m_2 m_3 J t1 t2 t3 d1 d2 d3 hJ ht1 ht2 ht3 hd1 hd2 hd3
        hms htr1 htr2 htr3 hm1 hm2 hm3,
      w3j_ok_core j_2 j_1 j_3 m_2 m_1 m_3 J t2 t1 t3 d2 d1 d3 hJ2 ht2 ht1 ht3 hd2 hd1 hd3
        (by linarith) htr1 htr3 htr2 hm2 hm1 hm3]
    simp only [exVal]
    apply val_negOnePow_helper
    · rw [w3jS_reflect, w3jS_swap_AD, w3jS_swap_BC]
      rw [show J - t3 - (J - t1 - t3 + d1) = t1 - d1 from by ring,
        show J - t3 - (J - t3 - d2) = d2 from by ring,
        show J - t3 - (t2 - d2) = J - t2 - t3 + d2 from by ring,
        show J - t3 - min (t2 - d2) (min d1 (J - t3)) =
          max (J - t3 - d1) (max (J - t2 - t3 + d2) 0) from by omega,
        show J - t3 - max (J - t3 - d2) (max (J - t1 - t3 + d1) 0) =
          min (t1 - d1) (min d2 (J - t3)) from by omega]
      have hsgn : ((-1 : ℚ)) ^ (J - t3) * ((-1 : ℚ)) ^ (J - t2 - t3 + d3) =
          ((-1 : ℚ)) ^ J * ((-1 : ℚ)) ^ (J - t1 - t3 + d3) := by
        rw [← zpow_add₀ (by norm_num : (-1 : ℚ) ≠ 0),
          ← zpow_add₀ (by norm_num : (-1 : ℚ) ≠ 0)]
        exact negOne_zpow_even ⟨J - t2 - t3, by omega⟩
      linear_combination (w3jS (J - t3 - d1) (t1 - d1) d2 (J - t2 - t3 + d2) (J - t3)
        (max (J - t3 - d1) (max (J - t2 - t3 + d2) 0)) (min (t1 - d1) (min d2 (J - t3)))) * hsgn
    · ring
  · rw [w3j_zero_core j_1 j_2 j_3 m_1 m_2 m_3 J t1 t2 t3 d1 d2 d3 hJ ht1 ht2 ht3
        hd1 hd2 hd3 hsel,
      w3j_zero_core j_2 j_1 j_3 m_2 m_1 m_3 J t2 t1 t3 d2 d1 d3 hJ2 ht2 ht1 ht3 hd2 hd1 hd3
        (fun h => hsel ⟨by linarith [h.1], h.2.1, h.2.2.2.1, h.2.2.1, h.2.2.2.2.2.1,
          h.2.2.2.2.1, h.2.2.2.2.2.2⟩)]
    simp [exVal, SqrtQ.val_ofRat]

set_option maxHeartbeats 2000000 in
theorem w3j_T23 (j_1 j_2 j_3 m_1 m_2 m_3 : ℚ) (J t1 t2 t3 d1 d2 d3 : ℤ)
    (hJ : (J : ℚ) = j_1 + j_2 + j_3)
    (ht1 : (t1 : ℚ) = 2 * j_1) (ht2 : (t2 : ℚ) = 2 * j_2) (ht3 : (t3 : ℚ) = 2 * j_3)
    (hd1 : (d1 : ℚ) = j_1 - m_1) (hd2 : (d2 : ℚ) = j_2 - m_2) (hd3 : (d3 : ℚ) = j_3 - m_3) :
    exVal (wigner_3j j_1 j_2 j_3 m_1 m_2 m_3) =
      (-1 : ℝ) ^ J * exVal (wigner_3j j_1 j_3 j_2 m_1 m_3 m_2) := by
  have hts : t1 + t2 + t3 = 2 * J := by
    have hq : ((t1 + t2 + t3 : ℤ) : ℚ) = ((2 * J : ℤ) : ℚ) := by push_cast; linarith
    exact_mod_cast hq
  have hJ2 : (J : ℚ) = j_1 + j_3 + j_2 := by linarith
  by_cases hsel : m_1 + m_2 + m_3 = 0 ∧ t3 ≤ J ∧ t2 ≤ J ∧ t1 ≤ J ∧
      (0 ≤ d1 ∧ d1 ≤ t1) ∧ (0 ≤ d2 ∧ d2 ≤ t2) ∧ (0 ≤ d3 ∧ d3 ≤ t3)
  · obtain ⟨hms, htr1, htr2, htr3, hm1, hm2, hm3⟩ := hsel
    have hJd : d1 + d2 + d3 = J := by
      have hq : ((d1 + d2 + d3 : ℤ) : ℚ) = ((J : ℤ) : ℚ) := by push_cast; linarith
      exact_mod_cast hq
    rw [w3j_ok_core j_1 j_2 j_3 m_1 m_2 m_3 J t1 t2 t3 d1 d2 d3 hJ ht1 ht2 ht3 hd1 hd2 hd3
        hms htr1 htr2 htr3 hm1 hm2 hm3,
      w3j_ok_core j_1 j_3 j_2 m_1 m_3 m_2 J t1 t3 t2 d1 d3 d2 hJ2 ht1 ht3 ht2 hd1 hd3 hd2
        (by linarith) htr2 htr1 htr3 hm1 hm3 hm2]
    simp only [exVal]
    apply val_negOnePow_helper
    · rw [w3jS_swap_CK, w3jS_reflect, w3jS_swap_CK]
      rw [show d1 - (t2 - d2) = J - t2 - d3 from by omega,
        show d1 - (J - t3 - d2) = t3 - d3 from by omega,
        show d1 - (J - t3) = J - t1 - t2 + d1 from by omega,
        show d1 - (J - t1 - t3 + d1) = J - t2 from by omega,
        show d1 - min (t2 - d2) (min d1 (J - t3)) =
          max (J - t2 - d3) (max (J - t1 - t2 + d1) 0) from by omega,
        show d1 - max (J - t3 - d2) (max (J - t1 - t3 + d1) 0) =
          min (t3 - d3) (min d1 (J - t2)) from by omega]
      have hsgn : ((-1 : ℚ)) ^ d1 * ((-1 : ℚ)) ^ (J - t2 - t3 + d3) =
          ((-1 : ℚ)) ^ J * ((-1 : ℚ)) ^ (J - t3 - t2 + d2) := by
        rw [← zpow_add₀ (by norm_num : (-1 : ℚ) ≠ 0),
          ← zpow_add₀ (by norm_num : (-1 : ℚ) ≠ 0)]
        exact negOne_zpow_even ⟨-d2, by omega⟩
      linear_combination (w3jS (J - t2 - d3) (t3 - d3) d1 (J - t1 - t2 + d1) (J - t2)
        (max (J - t2 - d3) (max (J - t1 - t2 + d1) 0)) (min (t3 - d3) (min d1 (J - t2)))) * hsgn
    · ring
  · rw [w3j_zero_core j_1 j_2 j_3 m_1 m_2 m_3 J t1 t2 t3 d1 d2 d3 hJ ht1 ht2 ht3
        hd1 hd2 hd3 hsel,
      w3j_zero_core j_1 j_3 j_2 m_1 m_3 m_2 J t1 t3 t2 d1 d3 d2 hJ2 ht1 ht3 ht2 hd1 hd3 hd2
        (fun h => hsel ⟨by linarith [h.1], h.2.2.1, h.2.1, h.2.2.2.1, h.2.2.2.2.1,
          h.2.2.2.2.2.2, h.2.2.2.2.2.1⟩)]
    simp [exVal, SqrtQ.val_ofRat]

set_option maxHeartbeats 2000000 in
theorem w3j_inflect (j_1 j_2 j_3 m_1 m_2 m_3 : ℚ) (J t1 t2 t3 d1 d2 d3 : ℤ)
    (hJ : (J : ℚ) = j_1 + j_2 + j_3)
    (ht1 : (t1 : ℚ) = 2 * j_1) (ht2 : (t2 : ℚ) = 2 * j_2) (ht3 : (t3 : ℚ) = 2 * j_3)
    (hd1 : (d1 : ℚ) = j_1 - m_1) (hd2 : (d2 : ℚ) = j_2 - m_2) (hd3 : (d3 : ℚ) = j_3 - m_3) :
    exVal (wigner_3j j_1 j_2 j_3 m_1 m_2 m_3) =
      (-1 : ℝ) ^ J * exVal (wigner_3j j_1 j_2 j_3 (-m_1) (-m_2) (-m_3)) := by
  have hd1n : ((t1 - d1 : ℤ) : ℚ) = j_1 - -m_1 := by push_cast; linarith
  have hd2n : ((t2 - d2 : ℤ) : ℚ) = j_2 - -m_2 := by push_cast; linarith
  have hd3n : ((t3 - d3 : ℤ) : ℚ) = j_3 - -m_3 := by push_cast; linarith
  by_cases hsel : m_1 + m_2 + m_3 = 0 ∧ t3 ≤ J ∧ t2 ≤ J ∧ t1 ≤ J ∧
      (0 ≤ d1 ∧ d1 ≤ t1) ∧ (0 ≤ d2 ∧ d2 ≤ t2) ∧ (0 ≤ d3 ∧ d3 ≤ t3)
  · obtain ⟨hms, htr1, htr2, htr3, hm1, hm2, hm3⟩ := hsel
    rw [w3j_ok_core j_1 j_2 j_3 m_1 m_2 m_3 J t1 t2 t3 d1 d2 d3 hJ ht1 ht2 ht3 hd1 hd2 hd3
        hms htr1 htr2 htr3 hm1 hm2 hm3,
      w3j_ok_core j_1 j_2 j_3 (-m_1) (-m_2) (-m_3) J t1 t2 t3 (t1 - d1) (t2 - d2) (t3 - d3)
        hJ ht1 ht2 ht3 hd1n hd2n hd3n (by linarith) htr1 htr2 htr3
        ⟨by omega, by omega⟩ ⟨by omega, by omega⟩ ⟨by omega, by omega⟩]
    rw [show t1 - (t1 - d1) = d1 from by ring, show t2 - (t2 - d2) = d2 from by ring,
      show t3 - (t3 - d3) = d3 from by ring]
    simp only [exVal]
    apply val_negOnePow_helper
    · rw [w3jS_reflect]
      rw [show J - t3 - (J - t3 - d2) = d2 from by ring,
        show J - t3 - (J - t1 - t3 + d1) = t1 - d1 from by ring,
        show J - t3 - d1 = J - t1 - t3 + (t1 - d1) from by ring,
        show J - t3 - min (t2 - d2) (min d1 (J - t3)) =
          max (J - t3 - (t2 - d2)) (max (J - t1 - t3 + (t1 - d1)) 0) from by omega,
        show J - t3 - max (J - t3 - d2) (max (J - t1 - t3 + d1) 0) =
          min d2 (min (t1 - d1) (J - t3)) from by omega]
      have hsgn : ((-1 : ℚ)) ^ (J - t3) * ((-1 : ℚ)) ^ (J - t2 - t3 + d3) =
          ((-1 : ℚ)) ^ J * ((-1 : ℚ)) ^ (J - t2 - t3 + (t3 - d3)) := by
        rw [← zpow_add₀ (by norm_num : (-1 : ℚ) ≠ 0),
          ← zpow_add₀ (by norm_num : (-1 : ℚ) ≠ 0)]
        exact negOne_zpow_even ⟨d3 - t3, by omega⟩
      linear_combination (w3jS (J - t3 - (t2 - d2)) d2 (t1 - d1) (J - t1 - t3 + (t1 - d1))
        (J - t3) (max (J - t3 - (t2 - d2)) (max (J - t1 - t3 + (t1 - d1)) 0))
        (min d2 (min (t1 - d1) (J - t3)))) * hsgn
    · ring
  · rw [w3j_zero_core j_1 j_2 j_3 m_1 m_2 m_3 J t1 t2 t3 d1 d2 d3 hJ ht1 ht2 ht3
        hd1 hd2 hd3 hsel,
      w3j_zero_core j_1 j_2 j_3 (-m_1) (-m_2) (-m_3) J t1 t2 t3 (t1 - d1) (t2 - d2) (t3 - d3)
        hJ ht1 ht2 ht3 hd1n hd2n hd3n
        (fun h => hsel (by
          obtain ⟨h1, h2, h3, h4, h5, h6, h7⟩ := h
          exact ⟨by linarith, h2, h3, h4, by omega, by omega, by omega⟩))]
    simp [exVal, SqrtQ.val_ofRat]

/-- Claim C9 (corrected): for inputs aligned so that `2*j_i`, `j_i - m_i` and
`J = j_1+j_2+j_3` are integers (witnessed by `t_i`, `d_i`, `J`), the value of
`wigner_3j` is invariant under both cyclic permutations of its three `(j, m)`
columns, is multiplied by `(-1)^J` under each of the three column
transpositions, and satisfies the space-inflection identity
`wigner_3j(j, m) = (-1)^J * wigner_3j(j, -m)`.  Without the alignment
hypotheses the transposition rule fails on validation-passing inputs (see the
counterexample). -/
theorem wigner_3j_symmetries (j_1 j_2 j_3 m_1 m_2 m_3 : ℚ) (J t1 t2 t3 d1 d2 d3 : ℤ)
    (hJ : (J : ℚ) = j_1 + j_2 + j_3)
    (ht1 : (t1 : ℚ) = 2 * j_1) (ht2 : (t2 : ℚ) = 2 * j_2) (ht3 : (t3 : ℚ) = 2 * j_3)
    (hd1 : (d1 : ℚ) = j_1 - m_1) (hd2 : (d2 : ℚ) = j_2 - m_2) (hd3 : (d3 : ℚ) = j_3 - m_3) :
    exVal (wigner_3j j_1 j_2 j_3 m_1 m_2 m_3) = exVal (wigner_3j j_3 j_1 j_2 m_3 m_1 m_2) ∧
    exVal (wigner_3j j_1 j_2 j_3 m_1 m_2 m_3) = exVal (wigner_3j j_2 j_3 j_1 m_2 m_3 m_1) ∧
    exVal (wigner_3j j_1 j_2 j_3 m_1 m_2 m_3) =
      (-1 : ℝ) ^ J * exVal (wigner_3j j_2 j_1 j_3 m_2 m_1 m_3) ∧
    exVal (wigner_3j j_1 j_2 j_3 m_1 m_2 m_3) =
      (-1 : ℝ) ^ J * exVal (wigner_3j j_1 j_3 j_2 m_1 m_3 m_2) ∧
    exVal (wigner_3j j_1 j_2 j_3 m_1 m_2 m_3) =
      (-1 : ℝ) ^ J * exVal (wigner_3j j_3 j_2 j_1 m_3 m_2 m_1) ∧
    exVal (wigner_3j j_1 j_2 j_3 m_1 m_2 m_3) =
      (-1 : ℝ) ^ J * exVal (wigner_3j j_1 j_2 j_3 (-m_1) (-m_2) (-m_3)) := by
  have hsq : ((-1 : ℝ)) ^ J * ((-1 : ℝ)) ^ J = 1 := by
    rw [← zpow_add₀ (by norm_num : (-1 : ℝ) ≠ 0)]
    exact Even.neg_one_zpow ⟨J, rfl⟩
  have e12 := w3j_T12 j_1 j_2 j_3 m_1 m_2 m_3 J t1 t2 t3 d1 d2 d3 hJ ht1 ht2 ht3 hd1 hd2 hd3
  have e23 := w3j_T23 j_1 j_2 j_3 m_1 m_2 m_3 J t1 t2 t3 d1 d2 d3 hJ ht1 ht2 ht3 hd1 hd2 hd3
  have e23b := w3j_T23 j_2 j_1 j_3 m_2 m_1 m_3 J t2 t1 t3 d2 d1 d3 (by linarith)
    ht2 ht1 ht3 hd2 hd1 hd3
  have e12b := w3j_T12 j_1 j_3 j_2 m_1 m_3 m_2 J t1 t3 t2 d1 d3 d2 (by linarith)
    ht1 ht3 ht2 hd1 hd3 hd2
  have e12c := w3j_T12 j_2 j_3 j_1 m_2 m_3 m_1 J t2 t3 t1 d2 d3 d1 (by linarith)
    ht2 ht3 ht1 hd2 hd3 hd1
  have einf := w3j_inflect j_1 j_2 j_3 m_1 m_2 m_3 J t1 t2 t3 d1 d2 d3 hJ ht1 ht2 ht3
    hd1 hd2 hd3
  have ecyc2 : exVal (wigner_3j j_1 j_2 j_3 m_1 m_2 m_3) =
      exVal (wigner_3j j_2 j_3 j_1 m_2 m_3 m_1) := by
    rw [e12, e23b, ← mul_assoc, hsq, one_mul]
  have ecyc1 : exVal (wigner_3j j_1 j_2 j_3 m_1 m_2 m_3) =
      exVal (wigner_3j j_3 j_1 j_2 m_3 m_1 m_2) := by
    rw [e23, e12b, ← mul_assoc, hsq, one_mul]
  have e13 : exVal (wigner_3j j_1 j_2 j_3 m_1 m_2 m_3) =
      (-1 : ℝ) ^ J * exVal (wigner_3j j_3 j_2 j_1 m_3 m_2 m_1) := by
    rw [ecyc2]
    exact e12c
  exact ⟨ecyc1, ecyc2, e12, e23, e13, einf⟩

/-- Witness for C9 at `(j_1, j_2, j_3) = (1/2, 1/2, 1)`,
`(m_1, m_2, m_3) = (1/2, -1/2, 0)`, `J = 2`. -/
theorem wigner_3j_symmetries_witness :
    exVal (wigner_3j (1/2) (1/2) 1 (1/2) (-1/2) 0) =
      exVal (wigner_3j 1 (1/2) (1/2) 0 (1/2) (-1/2)) ∧
    exVal (wigner_3j (1/2) (1/2) 1 (1/2) (-1/2) 0) =
      exVal (wigner_3j (1/2) 1 (1/2) (-1/2) 0 (1/2)) ∧
    exVal (wigner_3j (1/2) (1/2) 1 (1/2) (-1/2) 0) =
      (-1 : ℝ) ^ (2 : ℤ) * exVal (wigner_3j (1/2) (1/2) 1 (-1/2) (1/2) 0) ∧
    exVal (wigner_3j (1/2) (1/2) 1 (1/2) (-1/2) 0) =
      (-1 : ℝ) ^ (2 : ℤ) * exVal (wigner_3j (1/2) 1 (1/2) (1/2) 0 (-1/2)) ∧
    exVal (wigner_3j (1/2) (1/2) 1 (1/2) (-1/2) 0) =
      (-1 : ℝ) ^ (2 : ℤ) * exVal (wigner_3j 1 (1/2) (1/2) 0 (-1/2) (1/2)) ∧
    exVal (wigner_3j (1/2) (1/2) 1 (1/2) (-1/2) 0) =
      (-1 : ℝ) ^ (2 : ℤ) * exVal (wigner_3j (1/2) (1/2) 1 (-(1/2)) (-(-1/2)) (-0)) :=
  wigner_3j_symmetries (1/2) (1/2) 1 (1/2) (-1/2) 0 2 1 1 2 0 1 1
    (by norm_num) (by norm_num) (by norm_num) (by norm_num) (by norm_num) (by norm_num)
    (by norm_num)

/-- Claim C9 counterexample: the input `(j_1, j_2, j_3) = (1/2, 0, 1/2)`,
`(m_1, m_2, m_3) = (0, 0, 0)` passes the code's half-integer validation and
every selection rule (both calls return `ok` with the nonzero value
`sqrt(1/2)`), and `j_1 + j_2 + j_3 = 1`, yet transposing the first two columns
does not multiply the value by `(-1)^(j_1+j_2+j_3) = -1`: the `int()`
truncations make both column orders evaluate to the same nonzero value. -/
theorem wigner_3j_symmetry_counterexample :
    (1 / 2 : ℚ) + 0 + 1 / 2 = ((1 : ℤ) : ℚ) ∧
    exVal (wigner_3j (1/2) 0 (1/2) 0 0 0) ≠
      (-1 : ℝ) ^ (1 : ℤ) * exVal (wigner_3j 0 (1/2) (1/2) 0 0 0) := by
  constructor
  · norm_num
  · have h1 : wigner_3j (1/2 : ℚ) 0 (1/2) 0 0 0 = .ok ⟨1, 1/2⟩ := by
      norm_num [wigner_3j, pyint, qfactI, factI, intRange, intRangeGo, Nat.factorial]
    have h2 : wigner_3j (0 : ℚ) (1/2) (1/2) 0 0 0 = .ok ⟨1, 1/2⟩ := by
      norm_num [wigner_3j, pyint, qfactI, factI, intRange, intRangeGo, Nat.factorial]
    rw [h1, h2]
    simp only [exVal, SqrtQ.val]
    have hpos : (0 : ℝ) < Real.sqrt (((1 / 2 : ℚ)) : ℝ) := Real.sqrt_pos.2 (by norm_num)
    intro h
    rw [zpow_one, show ((1 : ℚ) : ℝ) = 1 from by norm_num, one_mul] at h
    linarith [hpos, h]
